import Mathlib

/-!
Shallow embedding of the edb EVM debugger core (Go sources: opcode.go, hook.go,
asm.go, eth_client.go, the Context/Run driver, Stack and Memory), together with
proofs about the embedded definitions.

Modelling conventions:
* 256-bit machine words (holiman/uint256) are `Nat` values kept below `2 ^ 256`;
  every operation that wraps in the source applies `% 2 ^ 256` explicitly.
* Go `uint64` arithmetic wraps `% 2 ^ 64` where the source can overflow.
* Go slices are `List Nat` (one `Nat` per byte); the operand stack is a
  `List Nat` whose HEAD is the TOP of the stack (Go appends the top at the
  tail of a slice; the two representations are mirror images).
* Go maps are association lists; lookup is first match, insert prepends after
  filtering the key (Go map iteration order is never relied on by the claims).
* Fallible Go functions return `Except Err` or pair the new state with
  `Option Err`; mutations performed before an error are kept, as in Go.
* Go nil-pointer dereferences and slice-bounds panics have no Go result; where
  a claim never reaches them the embedding returns a harmless default and a
  comment marks the spot, where a claim does reach them they are modelled by
  `Err.nilDeref` / `Option.none` results.
* External collaborators (go-ethereum Keccak, Berlin precompile bodies, the
  archive-node RPC client) are oracle functions carried inside the `Context`,
  universally quantified by every theorem.
-/

/-- Errors surfaced by the interpreter; each constructor corresponds to one
error site in the Go source (strings elided, dynamic parts kept as payloads). -/
inductive Err where
  | invalidJump
  | returnDataOutOfBounds
  | reverted
  | invalidOp
  | blockHashOverflow (n : Nat)
  | noBlockHash (n : Nat)
  | noCode (addr : Nat)
  | noStorage (addr : Nat)
  | noBalance (addr : Nat)
  | invalidAddressOrBlock
  | rpcFailed
  | precompiledFailed
  | pushNotEnoughData
  | invalidPc (pc : Nat)
  | todo (opc : Nat)
  | suicide (w : Nat)
  | breakpoint
  | nilDeref
  deriving DecidableEq, Repr

/-- Word size of the VM: values of the operand stack live below `2 ^ 256`. -/
def W256 : Nat := 2 ^ 256

/-- Go `uint64` modulus. -/
def U64 : Nat := 2 ^ 64

/-- Interpret a word as a signed two's-complement 256-bit integer. -/
def toSigned (x : Nat) : Int := if x < 2 ^ 255 then (x : Int) else (x : Int) - (W256 : Int)

/-- Two's-complement encoding of an integer as a 256-bit word
(`uint256.SetFromBig` including its negative case). -/
def ofInt (i : Int) : Nat := (i % (W256 : Int)).toNat

/-- Go `int64(u)` reinterpretation of a `uint64` value. -/
def asInt64 (n : Nat) : Int := if n < 2 ^ 63 then (n : Nat) else (n : Int) - (U64 : Int)

/-- Truncation to the low 20 bytes (`common.Address(x.Bytes20())`). -/
def bytes20 (x : Nat) : Nat := x % 2 ^ 160

/-- uint256 `Add` (wraps). -/
def uadd (x y : Nat) : Nat := (x + y) % W256

/-- uint256 `Sub` (wraps). -/
def usub (x y : Nat) : Nat := ofInt ((x : Int) - (y : Int))

/-- uint256 `Mul` (wraps). -/
def umul (x y : Nat) : Nat := (x * y) % W256

/-- uint256 `Div`: division by zero yields zero. -/
def udiv (x y : Nat) : Nat := if y = 0 then 0 else x / y

/-- uint256 `SDiv`: signed division truncating toward zero, zero divisor gives 0. -/
def usdiv (x y : Nat) : Nat :=
  if toSigned y = 0 then 0 else ofInt (Int.tdiv (toSigned x) (toSigned y))

/-- uint256 `Mod`: modulo, zero modulus gives 0. -/
def umod (x y : Nat) : Nat := if y = 0 then 0 else x % y

/-- uint256 `SMod`: signed remainder (sign of the dividend), zero modulus gives 0. -/
def usmod (x y : Nat) : Nat :=
  if toSigned y = 0 then 0 else ofInt (Int.tmod (toSigned x) (toSigned y))

/-- uint256 `AddMod` as used by `opAddmod` (the exec clears on zero modulus). -/
def uaddmod (x y m : Nat) : Nat := if m = 0 then 0 else (x + y) % m

/-- uint256 `MulMod` (returns 0 when the modulus is 0). -/
def umulmod (x y m : Nat) : Nat := if m = 0 then 0 else (x * y) % m

/-- uint256 `Exp` (wraps). -/
def uexp (b e : Nat) : Nat := (b ^ e) % W256

/-- uint256 `ExtendSign`: sign-extend from byte index `b` (no-op when `b > 30`). -/
def usignextend (b x : Nat) : Nat :=
  if 30 < b then x
  else
    let bit := b * 8 + 7
    let m := 2 ^ (bit + 1)
    let low := x % m
    if (x / 2 ^ bit) % 2 = 1 then low + (W256 - m) else low

/-- Word encoding of a boolean comparison result. -/
def boolW (b : Prop) [Decidable b] : Nat := if b then 1 else 0

/-- uint256 `Lt`. -/
def ult (x y : Nat) : Nat := boolW (x < y)

/-- uint256 `Gt`. -/
def ugt (x y : Nat) : Nat := boolW (y < x)

/-- uint256 `Slt`. -/
def uslt (x y : Nat) : Nat := boolW (toSigned x < toSigned y)

/-- uint256 `Sgt`. -/
def usgt (x y : Nat) : Nat := boolW (toSigned y < toSigned x)

/-- uint256 `Eq`. -/
def ueq (x y : Nat) : Nat := boolW (x = y)

/-- uint256 `IsZero`. -/
def uiszero (x : Nat) : Nat := boolW (x = 0)

/-- Bitwise and. -/
def uand (x y : Nat) : Nat := Nat.land x y

/-- Bitwise or. -/
def uor (x y : Nat) : Nat := Nat.lor x y

/-- Bitwise xor. -/
def uxor (x y : Nat) : Nat := Nat.xor x y

/-- Bitwise not of a 256-bit word. -/
def unot (x : Nat) : Nat := W256 - 1 - x % W256

/-- uint256 `Byte`: the `th`-th byte counted from the most significant one. -/
def ubyte (th val : Nat) : Nat :=
  if th < 32 then val / 2 ^ (8 * (31 - th)) % 256 else 0

/-- `opSHL` value part: left shift, cleared when the shift is `≥ 256`. -/
def ushl (shift value : Nat) : Nat :=
  if shift < 256 then value * 2 ^ shift % W256 else 0

/-- `opSHR` value part: logical right shift, cleared when the shift is `≥ 256`. -/
def ushr (shift value : Nat) : Nat :=
  if shift < 256 then value / 2 ^ shift else 0

/-- uint256 `SRsh` for shifts `≤ 256`: arithmetic shift filling with the sign bit. -/
def srsh (value n : Nat) : Nat :=
  if value < 2 ^ 255 then value / 2 ^ n else value / 2 ^ n + (W256 - 2 ^ (256 - n))

/-- `opSAR` value part: shifts strictly above 256 clamp to 0 or all ones,
otherwise uint256 `SRsh` is applied (which also handles 256 itself). -/
def usar (shift value : Nat) : Nat :=
  if 256 < shift then (if value < 2 ^ 255 then 0 else W256 - 1)
  else srsh value shift

/-- Big-endian byte list to `Nat` (`uint256.SetBytes`). -/
def bytesToNat (bs : List Nat) : Nat := bs.foldl (fun acc b => acc * 256 + b % 256) 0

/-- Big-endian 32-byte encoding of a word (`uint256.WriteToSlice` after zeroing). -/
def natToBytes32 (x : Nat) : List Nat :=
  (List.range 32).map (fun i => x / 2 ^ (8 * (31 - i)) % 256)

/-- Association-list lookup, standing in for a Go map read. -/
def alistGet {α : Type} (l : List (Nat × α)) (k : Nat) : Option α :=
  (l.find? (fun p => p.1 == k)).map (fun p => p.2)

/-- Association-list insert-or-overwrite, standing in for a Go map write. -/
def alistPut {α : Type} (l : List (Nat × α)) (k : Nat) (v : α) : List (Nat × α) :=
  (k, v) :: l.filter (fun p => p.1 != k)

/-- `getData` (opcode.go): overflow-safe slice of `data` zero-padded to `size`. -/
def getData (data : List Nat) (start size : Nat) : List Nat :=
  let s := min start data.length
  let seg := (data.drop s).take (min size (data.length - s))
  seg ++ List.replicate (size - seg.length) 0

/-- `Memory.GetPtr`: `nil` for size 0, the slice from `offset` when the offset is
in range (Go panics when `offset+size` overruns the store; the model clamps,
no claim depends on that state), `nil` otherwise. -/
def getPtr (store : List Nat) (offset size : Nat) : List Nat :=
  if size = 0 then []
  else if offset < store.length then (store.drop offset).take size
  else []

/-- Go `copy(l[i:i+len src], src)`: overwrite in place, clamped at the end of `l`. -/
def listCopy (l : List Nat) (i : Nat) (src : List Nat) : List Nat :=
  l.take i ++ src.take (l.length - i) ++ l.drop (i + src.length)

/-- `Memory.Resize`: zero-extend the store to `size` when it is shorter. -/
def memResize (store : List Nat) (size : Nat) : List Nat :=
  if store.length < size then store ++ List.replicate (size - store.length) 0 else store

/-- `Memory.Set`: a zero `size` is a no-op; otherwise resize to `offset+size`
(Go `uint64` addition, hence the `% 2 ^ 64`) and overwrite `size` bytes. -/
def memSet (store : List Nat) (offset size : Nat) (value : List Nat) : List Nat :=
  if 0 < size then
    let e := (offset + size) % U64
    let st1 := memResize store e
    listCopy st1 offset (value.take size)
  else store

/-- `Memory.Set32`: resize to `offset+32` then write the 32-byte big-endian
encoding of `val` (the source zeroes the window and calls `WriteToSlice`). -/
def memSet32 (store : List Nat) (offset : Nat) (val : Nat) : List Nat :=
  let e := (offset + 32) % U64
  let st1 := memResize store e
  listCopy st1 offset (natToBytes32 val)

/-- `Stack.Pop` with the top at the head (Go pops at the tail of the slice;
Go panics on an empty stack, the model returns a zero word there). -/
def spop (s : List Nat) : Nat × List Nat :=
  match s with
  | [] => (0, [])
  | a :: r => (a, r)

/-- `Stack.PeekI n`: the n-th item from the top (Go `Data[len-1-n]`). -/
def speekI (s : List Nat) (n : Nat) : Nat := s.getD n 0

/-- Assignment through `Stack.Peek` (replace the top in place). -/
def supdTop (f : Nat → Nat) (s : List Nat) : List Nat :=
  match s with
  | [] => []
  | a :: r => f a :: r

/-- The `pop x; peek y; y := f x y` pattern used by the binary ALU opcodes. -/
def binPeek (f : Nat → Nat → Nat) (s : List Nat) : List Nat :=
  let (x, s1) := spop s
  supdTop (fun y => f x y) s1

/-- The `pop x; pop y; peek z; z := f x y z` pattern of ADDMOD / MULMOD. -/
def ternPeek (f : Nat → Nat → Nat → Nat) (s : List Nat) : List Nat :=
  let (x, s1) := spop s
  let (y, s2) := spop s1
  supdTop (fun z => f x y z) s2

/-- `Stack.Dup n`: push `Data[len-n]`, i.e. the item at depth `n-1`. -/
def sdup (n : Nat) (s : List Nat) : List Nat := s.getD (n - 1) 0 :: s

/-- Swap the top with the item at depth `i` (`Stack.Swap (i+1)` in the source). -/
def sswapIdx (i : Nat) (s : List Nat) : List Nat :=
  (s.set 0 (s.getD i 0)).set i (s.getD 0 0)

/-- Per-opcode metadata of an `Operation` (opcode.go); the gas function is
carried in the source but never consulted by the driver and is omitted. -/
structure OpMeta where
  opCode : Nat
  opSize : Nat
  nStackIn : Nat
  nStackOut : Nat
  deriving DecidableEq, Repr

/-- One disassembled instruction (asm.go `Line`); the source stores a pointer
to the `Operation`, the model stores its metadata (the driver re-reads the
table by opcode before executing). -/
structure Line where
  pc : Nat
  lineNum : Nat
  op : OpMeta
  data : List Nat
  deriving DecidableEq, Repr

/-- Disassembly result (asm.go `Asm`): line sequence plus the pc index. -/
structure Asm where
  sequence : List Line
  mapPc : List (Nat × Line)
  deriving DecidableEq, Repr

/-- `Contract` (part of the Context source file): code with its disassembly,
optional cached balance, cached storage. -/
structure Contract where
  codeBinary : List Nat
  codeAsm : Option Asm
  balance : Option Int
  storage : List (Nat × Nat)
  deriving DecidableEq, Repr

/-- `NewContract`. -/
def newContract : Contract := ⟨[], none, none, []⟩

/-- `Call`: one frame of the call stack. -/
structure Call where
  msgData : List Nat
  msgGas : Nat
  msgSender : Nat
  msgValue : Int
  this : Nat
  codePtr : Option Nat
  memory : List Nat
  stack : List Nat
  pc : Nat
  outerReturnOffset : Nat
  outerReturnSize : Nat
  innerReturnVal : List Nat
  deriving DecidableEq, Repr

/-- Zero `Call` value (Go's zero struct, as built by `NewContext`). -/
def defCall : Call := ⟨[], 0, 0, 0, 0, none, [], [], 0, 0, 0, []⟩

/-- `Call.CodeAddress`: the delegatecall override or `this`. -/
def Call.codeAddress (c : Call) : Nat := c.codePtr.getD c.this

/-- Archive-node RPC client (eth_client.go): each method is an oracle,
`none` modelling a transport/RPC failure. -/
structure EthOracle where
  codeAt : Nat → Nat → Option (List Nat)
  storageAt : Nat → Nat → Nat → Option Nat
  balanceAt : Nat → Nat → Option Int
  blockHashAt : Nat → Option Nat

/-- A hook (hook.go): receiver state of type `σ` plus the two callbacks.
The Go interface lets every hook carry its own mutable receiver; the model
threads that receiver explicitly. -/
structure Hook (σ : Type) where
  st : σ
  pre : σ → Call → Line → σ × Option Err
  post : σ → Call → Line → σ × Option Err

/-- `Context`: process-wide execution state for one transaction replay.
`keccak` and `precompileRun` model the external go-ethereum collaborators
(util.Sha3 and the Berlin precompiled contracts). -/
structure Context (σ : Type) where
  isDone : Bool
  ethClient : Option EthOracle
  chainId : Nat
  txOrigin : Nat
  txGasPrice : Nat
  blockNumber : Nat
  blockTimestamp : Nat
  blockDifficulty : Nat
  blockCoinbase : Nat
  blockGasLimit : Nat
  blockBaseFee : Nat
  contracts : List (Nat × Contract)
  callStack : List Call
  hooks : List (Hook σ)
  blockHashes : List (Nat × Nat)
  keccak : List Nat → Nat
  precompileRun : Nat → List Nat → Option (List Nat)

/-- `Context.Call`: the current call is the top of the call stack
(`callStack.len ≥ 1` is a documented invariant; the default is never reached
on valid states). -/
def Context.call {σ : Type} (ctx : Context σ) : Call := ctx.callStack.headD defCall

/-- Replace the current call by `f` of it (Go mutates through the pointer). -/
def Context.updCall {σ : Type} (f : Call → Call) (ctx : Context σ) : Context σ :=
  { ctx with callStack := match ctx.callStack with
      | [] => []
      | c :: r => f c :: r }

/-- Mutate the current call's operand stack. -/
def Context.modifyStack {σ : Type} (f : List Nat → List Nat) (ctx : Context σ) : Context σ :=
  ctx.updCall (fun c => { c with stack := f c.stack })

/-- Set the current call's operand stack. -/
def Context.setStack {σ : Type} (s : List Nat) (ctx : Context σ) : Context σ :=
  ctx.modifyStack (fun _ => s)

/-- Set the current call's program counter. -/
def Context.setPc {σ : Type} (p : Nat) (ctx : Context σ) : Context σ :=
  ctx.updCall (fun c => { c with pc := p })

/-- Mutate the current call's memory. -/
def Context.modifyMem {σ : Type} (f : List Nat → List Nat) (ctx : Context σ) : Context σ :=
  ctx.updCall (fun c => { c with memory := f c.memory })

/-- `Context.Code().Binary`: the code of the contract at the current code
address (Go dereferences a nil contract when the address is unknown and
panics; the model yields empty code there — no claim reaches that state). -/
def Context.codeBinary {σ : Type} (ctx : Context σ) : List Nat :=
  match alistGet ctx.contracts ctx.call.codeAddress with
  | some c => c.codeBinary
  | none => []

/-- Operation-table metadata, part 1 (split only to keep elaboration light). -/
def metaEntriesA : List (Nat × OpMeta) :=
  [ (0x00, ⟨0x00, 0, 0, 0⟩)
  , (0x01, ⟨0x01, 0, 2, 1⟩)
  , (0x02, ⟨0x02, 0, 2, 1⟩)
  , (0x03, ⟨0x03, 0, 2, 1⟩)
  , (0x04, ⟨0x04, 0, 2, 1⟩)
  , (0x05, ⟨0x05, 0, 2, 1⟩)
  , (0x06, ⟨0x06, 0, 2, 1⟩)
  , (0x07, ⟨0x07, 0, 2, 1⟩)
  , (0x08, ⟨0x08, 0, 2, 1⟩)
  , (0x09, ⟨0x09, 0, 2, 1⟩)
  , (0x0a, ⟨0x0a, 0, 2, 1⟩)
  , (0x0b, ⟨0x0b, 0, 2, 1⟩)
  , (0x10, ⟨0x10, 0, 2, 1⟩)
  , (0x11, ⟨0x11, 0, 2, 1⟩)
  , (0x12, ⟨0x12, 0, 2, 1⟩)
  , (0x13, ⟨0x13, 0, 2, 1⟩)
  , (0x14, ⟨0x14, 0, 2, 1⟩)
  , (0x15, ⟨0x15, 0, 1, 1⟩)
  , (0x16, ⟨0x16, 0, 2, 1⟩)
  , (0x17, ⟨0x17, 0, 2, 1⟩)
  , (0x18, ⟨0x18, 0, 2, 1⟩)
  , (0x19, ⟨0x19, 0, 1, 1⟩)
  , (0x1a, ⟨0x1a, 0, 2, 1⟩)
  , (0x1b, ⟨0x1b, 0, 2, 1⟩)
  , (0x1c, ⟨0x1c, 0, 2, 1⟩)
  , (0x1d, ⟨0x1d, 0, 2, 1⟩)
  , (0x20, ⟨0x20, 0, 2, 1⟩)
  , (0x30, ⟨0x30, 0, 0, 1⟩)
  , (0x31, ⟨0x31, 0, 1, 1⟩)
  , (0x32, ⟨0x32, 0, 0, 1⟩)
  , (0x33, ⟨0x33, 0, 0, 1⟩)
  , (0x34, ⟨0x34, 0, 0, 1⟩)
  , (0x35, ⟨0x35, 0, 0, 1⟩)
  , (0x36, ⟨0x36, 0, 0, 1⟩)
  , (0x37, ⟨0x37, 0, 3, 0⟩)
  , (0x38, ⟨0x38, 0, 0, 1⟩) ]

/-- Operation-table metadata, part 2 (split only to keep elaboration light). -/
def metaEntriesB : List (Nat × OpMeta) :=
  [ (0x39, ⟨0x39, 0, 3, 0⟩)
  , (0x3a, ⟨0x3a, 0, 0, 1⟩)
  , (0x3b, ⟨0x3b, 0, 0, 1⟩)
  , (0x3c, ⟨0x3c, 0, 4, 0⟩)
  , (0x3d, ⟨0x3d, 0, 0, 1⟩)
  , (0x3e, ⟨0x3e, 0, 3, 0⟩)
  , (0x3f, ⟨0x3f, 0, 1, 1⟩)
  , (0x40, ⟨0x40, 0, 1, 1⟩)
  , (0x41, ⟨0x41, 0, 0, 1⟩)
  , (0x42, ⟨0x42, 0, 0, 1⟩)
  , (0x43, ⟨0x43, 0, 0, 1⟩)
  , (0x44, ⟨0x44, 0, 0, 1⟩)
  , (0x45, ⟨0x45, 0, 0, 1⟩)
  , (0x46, ⟨0x46, 0, 0, 1⟩)
  , (0x47, ⟨0x47, 0, 0, 1⟩)
  , (0x48, ⟨0x48, 0, 0, 1⟩)
  , (0x50, ⟨0x50, 0, 1, 0⟩)
  , (0x51, ⟨0x51, 0, 1, 1⟩)
  , (0x52, ⟨0x52, 0, 2, 0⟩)
  , (0x53, ⟨0x53, 0, 2, 0⟩)
  , (0x54, ⟨0x54, 0, 1, 1⟩)
  , (0x55, ⟨0x55, 0, 2, 0⟩)
  , (0x56, ⟨0x56, 0, 1, 0⟩)
  , (0x57, ⟨0x57, 0, 2, 0⟩)
  , (0x58, ⟨0x58, 0, 0, 1⟩)
  , (0x59, ⟨0x59, 0, 0, 1⟩)
  , (0x5a, ⟨0x5a, 0, 0, 1⟩)
  , (0x5b, ⟨0x5b, 0, 0, 0⟩)
  , (0x60, ⟨0x60, 1, 0, 1⟩)
  , (0x61, ⟨0x61, 2, 0, 1⟩)
  , (0x62, ⟨0x62, 3, 0, 1⟩)
  , (0x63, ⟨0x63, 4, 0, 1⟩)
  , (0x64, ⟨0x64, 5, 0, 1⟩)
  , (0x65, ⟨0x65, 6, 0, 1⟩)
  , (0x66, ⟨0x66, 7, 0, 1⟩)
  , (0x67, ⟨0x67, 8, 0, 1⟩) ]

/-- Operation-table metadata, part 3 (split only to keep elaboration light). -/
def metaEntriesC : List (Nat × OpMeta) :=
  [ (0x68, ⟨0x68, 9, 0, 1⟩)
  , (0x69, ⟨0x69, 10, 0, 1⟩)
  , (0x6a, ⟨0x6a, 11, 0, 1⟩)
  , (0x6b, ⟨0x6b, 12, 0, 1⟩)
  , (0x6c, ⟨0x6c, 13, 0, 1⟩)
  , (0x6d, ⟨0x6d, 14, 0, 1⟩)
  , (0x6e, ⟨0x6e, 15, 0, 1⟩)
  , (0x6f, ⟨0x6f, 16, 0, 1⟩)
  , (0x70, ⟨0x70, 17, 0, 1⟩)
  , (0x71, ⟨0x71, 18, 0, 1⟩)
  , (0x72, ⟨0x72, 19, 0, 1⟩)
  , (0x73, ⟨0x73, 20, 0, 1⟩)
  , (0x74, ⟨0x74, 21, 0, 1⟩)
  , (0x75, ⟨0x75, 22, 0, 1⟩)
  , (0x76, ⟨0x76, 23, 0, 1⟩)
  , (0x77, ⟨0x77, 24, 0, 1⟩)
  , (0x78, ⟨0x78, 25, 0, 1⟩)
  , (0x79, ⟨0x79, 26, 0, 1⟩)
  , (0x7a, ⟨0x7a, 27, 0, 1⟩)
  , (0x7b, ⟨0x7b, 28, 0, 1⟩)
  , (0x7c, ⟨0x7c, 29, 0, 1⟩)
  , (0x7d, ⟨0x7d, 30, 0, 1⟩)
  , (0x7e, ⟨0x7e, 31, 0, 1⟩)
  , (0x7f, ⟨0x7f, 32, 0, 1⟩)
  , (0x80, ⟨0x80, 0, 0, 1⟩)
  , (0x81, ⟨0x81, 0, 0, 1⟩)
  , (0x82, ⟨0x82, 0, 0, 1⟩)
  , (0x83, ⟨0x83, 0, 0, 1⟩)
  , (0x84, ⟨0x84, 0, 0, 1⟩)
  , (0x85, ⟨0x85, 0, 0, 1⟩)
  , (0x86, ⟨0x86, 0, 0, 1⟩)
  , (0x87, ⟨0x87, 0, 0, 1⟩)
  , (0x88, ⟨0x88, 0, 0, 1⟩)
  , (0x89, ⟨0x89, 0, 0, 1⟩)
  , (0x8a, ⟨0x8a, 0, 0, 1⟩)
  , (0x8b, ⟨0x8b, 0, 0, 1⟩) ]

/-- Operation-table metadata, part 4 (split only to keep elaboration light). -/
def metaEntriesD : List (Nat × OpMeta) :=
  [ (0x8c, ⟨0x8c, 0, 0, 1⟩)
  , (0x8d, ⟨0x8d, 0, 0, 1⟩)
  , (0x8e, ⟨0x8e, 0, 0, 1⟩)
  , (0x8f, ⟨0x8f, 0, 0, 1⟩)
  , (0x90, ⟨0x90, 0, 0, 0⟩)
  , (0x91, ⟨0x91, 0, 0, 0⟩)
  , (0x92, ⟨0x92, 0, 0, 0⟩)
  , (0x93, ⟨0x93, 0, 0, 0⟩)
  , (0x94, ⟨0x94, 0, 0, 0⟩)
  , (0x95, ⟨0x95, 0, 0, 0⟩)
  , (0x96, ⟨0x96, 0, 0, 0⟩)
  , (0x97, ⟨0x97, 0, 0, 0⟩)
  , (0x98, ⟨0x98, 0, 0, 0⟩)
  , (0x99, ⟨0x99, 0, 0, 0⟩)
  , (0x9a, ⟨0x9a, 0, 0, 0⟩)
  , (0x9b, ⟨0x9b, 0, 0, 0⟩)
  , (0x9c, ⟨0x9c, 0, 0, 0⟩)
  , (0x9d, ⟨0x9d, 0, 0, 0⟩)
  , (0x9e, ⟨0x9e, 0, 0, 0⟩)
  , (0x9f, ⟨0x9f, 0, 0, 0⟩)
  , (0xa0, ⟨0xa0, 0, 2, 0⟩)
  , (0xa1, ⟨0xa1, 0, 3, 0⟩)
  , (0xa2, ⟨0xa2, 0, 4, 0⟩)
  , (0xa3, ⟨0xa3, 0, 5, 0⟩)
  , (0xa4, ⟨0xa4, 0, 6, 0⟩)
  , (0xf0, ⟨0xf0, 0, 0, 0⟩)
  , (0xf1, ⟨0xf1, 0, 7, 0⟩)
  , (0xf2, ⟨0xf2, 0, 0, 0⟩)
  , (0xf3, ⟨0xf3, 0, 2, 0⟩)
  , (0xf4, ⟨0xf4, 0, 6, 0⟩)
  , (0xf5, ⟨0xf5, 0, 0, 0⟩)
  , (0xfa, ⟨0xfa, 0, 6, 0⟩)
  , (0xfd, ⟨0xfd, 0, 2, 0⟩)
  , (0xfe, ⟨0xfe, 0, 1, 0⟩)
  , (0xff, ⟨0xff, 0, 1, 0⟩) ]

/-- Operation-table metadata, one entry per supported opcode (opcode.go init). -/
def metaEntries : List (Nat × OpMeta) := metaEntriesA ++ metaEntriesB ++ metaEntriesC ++ metaEntriesD

/-- Metadata lookup in the operation table (`OpTable[opcode]`, metadata part). -/
def lookupMeta (opc : Nat) : Option OpMeta := alistGet metaEntries opc

/-- Disassembly scan loop (asm.go `Disasm`): read the opcode at `pc`, stop with
the lines collected so far on an unknown opcode or on missing immediate bytes
(both are warnings in the source), otherwise emit a `Line` and advance by
`1 + opSize`.  The `fuel` argument only bounds the recursion; every call site
passes at least `code.length + 1`, which the loop can never exhaust since each
iteration consumes at least one byte. -/
def disasmLoop (fuel : Nat) (code : List Nat) (pc : Nat) (acc : Asm) : Asm :=
  match fuel with
  | 0 => acc
  | fuel + 1 =>
    if pc < code.length then
      let opc := code.getD pc 0
      match lookupMeta opc with
      | none => acc
      | some m =>
        if code.length < pc + 1 + m.opSize then acc
        else
          let line : Line := ⟨pc, acc.sequence.length, m, (code.drop (pc + 1)).take m.opSize⟩
          disasmLoop fuel code (pc + 1 + m.opSize)
            ⟨acc.sequence ++ [line], acc.mapPc ++ [(pc, line)]⟩
    else acc

/-- `Asm.Disasm`: strip the trailing metadata block (big-endian u16 length in
the last two bytes) and scan.  When the recorded metadata length exceeds the
remaining input the Go slice expression `code[0 : len(code)-int(meta_len)-2]`
has a negative upper bound and panics; that abort is modelled by `none`. -/
def Asm.disasm (code : List Nat) : Option Asm :=
  if 2 < code.length then
    let metaLen := 256 * (code.getD (code.length - 2) 0 % 256) + code.getD (code.length - 1) 0 % 256
    if metaLen + 2 ≤ code.length then
      some (disasmLoop (code.length + 1) (code.take (code.length - metaLen - 2)) 0 ⟨[], []⟩)
    else none
  else some (disasmLoop (code.length + 1) code 0 ⟨[], []⟩)

/-- `Code.Disasm` on a `Contract`: skip when already disassembled, otherwise
run the disassembler (`none` = the Go panic described at `Asm.disasm`). -/
def Contract.codeDisasm (c : Contract) (code : List Nat) : Except Err Contract :=
  if c.codeAsm.isSome then .ok c
  else
    match Asm.disasm code with
    | none => .error .nilDeref
    | some asm => .ok { c with codeAsm := some asm }

/-- `Code.Set`: disassemble, then store the binary. -/
def Contract.codeSet (c : Contract) (code : List Nat) : Except Err Contract :=
  match c.codeDisasm code with
  | .error e => .error e
  | .ok c1 => .ok { c1 with codeBinary := code }

/-- `get_online_code` (eth_client.go). -/
def get_online_code {σ : Type} (ctx : Context σ) (addr blockNum : Nat) : Except Err (List Nat) :=
  match ctx.ethClient with
  | none => .error (.noCode addr)
  | some cl =>
    if addr = 0 ∨ blockNum = 0 then .error .invalidAddressOrBlock
    else
      match cl.codeAt addr blockNum with
      | none => .error .rpcFailed
      | some code => .ok code

/-- `get_online_storage` (eth_client.go). -/
def get_online_storage {σ : Type} (ctx : Context σ) (addr slot blockNum : Nat) : Except Err Nat :=
  match ctx.ethClient with
  | none => .error (.noStorage addr)
  | some cl =>
    if addr = 0 ∨ blockNum = 0 then .error .invalidAddressOrBlock
    else
      match cl.storageAt addr slot blockNum with
      | none => .error .rpcFailed
      | some v => .ok v

/-- `get_online_balance` (eth_client.go). -/
def get_online_balance {σ : Type} (ctx : Context σ) (addr blockNum : Nat) : Except Err Int :=
  match ctx.ethClient with
  | none => .error (.noBalance addr)
  | some cl =>
    if addr = 0 ∨ blockNum = 0 then .error .invalidAddressOrBlock
    else
      match cl.balanceAt addr blockNum with
      | none => .error .rpcFailed
      | some b => .ok b

/-- `get_online_block_hash` (eth_client.go). -/
def get_online_block_hash {σ : Type} (ctx : Context σ) (blockNum : Nat) : Except Err Nat :=
  match ctx.ethClient with
  | none => .error (.noBlockHash blockNum)
  | some cl =>
    match cl.blockHashAt blockNum with
    | none => .error .rpcFailed
    | some h => .ok h

/-- `ensure_contract_at`: fetch the contract, creating an empty one on a miss. -/
def ensure_contract_at {σ : Type} (ctx : Context σ) (addr : Nat) : Context σ × Contract :=
  match alistGet ctx.contracts addr with
  | some c => (ctx, c)
  | none => ({ ctx with contracts := alistPut ctx.contracts addr newContract }, newContract)

/-- `ensure_code`: local cache first, else fetch online at the block number,
disassemble and cache (mutations before an error are kept, as in Go). -/
def ensure_code {σ : Type} (ctx : Context σ) (addr : Nat) : Context σ × Except Err (List Nat) :=
  let (ctx1, contract) := ensure_contract_at ctx addr
  if 0 < contract.codeBinary.length then (ctx1, .ok contract.codeBinary)
  else
    match get_online_code ctx1 addr ctx1.blockNumber with
    | .error e => (ctx1, .error e)
    | .ok bin =>
      match contract.codeSet bin with
      | .error e => (ctx1, .error e)
      | .ok contract1 =>
        ({ ctx1 with contracts := alistPut ctx1.contracts addr contract1 }, .ok bin)

/-- `ensure_storage`: local cache first, else fetch the pre-state at
`Block.Number - 1` (a Go `uint64` subtraction, hence the wrap) and cache. -/
def ensure_storage {σ : Type} (ctx : Context σ) (addr slot : Nat) : Context σ × Except Err Nat :=
  let (ctx1, contract) := ensure_contract_at ctx addr
  match alistGet contract.storage slot with
  | some v => (ctx1, .ok v)
  | none =>
    match get_online_storage ctx1 addr slot ((ctx1.blockNumber + (U64 - 1)) % U64) with
    | .error e => (ctx1, .error e)
    | .ok v =>
      let contract1 := { contract with storage := alistPut contract.storage slot v }
      ({ ctx1 with contracts := alistPut ctx1.contracts addr contract1 }, .ok v)

/-- `ensure_balance`: local cache first, else fetch at `Block.Number - 1` and cache. -/
def ensure_balance {σ : Type} (ctx : Context σ) (addr : Nat) : Context σ × Except Err Int :=
  let (ctx1, contract) := ensure_contract_at ctx addr
  match contract.balance with
  | some b => (ctx1, .ok b)
  | none =>
    match get_online_balance ctx1 addr ((ctx1.blockNumber + (U64 - 1)) % U64) with
    | .error e => (ctx1, .error e)
    | .ok b =>
      ({ ctx1 with contracts := alistPut ctx1.contracts addr ({ contract with balance := some b }) },
       .ok b)

/-- `ensure_block_hash`: cache first, else fetch online and cache. -/
def ensure_block_hash {σ : Type} (ctx : Context σ) (blockNum : Nat) : Context σ × Except Err Nat :=
  match alistGet ctx.blockHashes blockNum with
  | some h => (ctx, .ok h)
  | none =>
    match get_online_block_hash ctx blockNum with
    | .error e => (ctx, .error e)
    | .ok h => ({ ctx with blockHashes := alistPut ctx.blockHashes blockNum h }, .ok h)

/-- Shape of an `executionFunc` (opcode.go): next state plus optional error;
mutations made before an error are kept, matching Go's in-place updates. -/
def ExecF (σ : Type) : Type := Context σ → Context σ × Option Err

/-- Lift a pure stack transformation to an exec function. -/
def mkPure {σ : Type} (f : List Nat → List Nat) : ExecF σ :=
  fun ctx => (ctx.modifyStack f, none)

/-- `opStop`: pop the frame and push a success flag on the outer stack when
this is an inner call, otherwise mark the context done. -/
def opStop {σ : Type} : ExecF σ := fun ctx =>
  if 1 < ctx.callStack.length then
    match ctx.callStack with
    | _ :: outer :: rest => ({ ctx with callStack := { outer with stack := 1 :: outer.stack } :: rest }, none)
    | _ => (ctx, none)
  else ({ ctx with isDone := true }, none)

/-- `opAdd` (pop x, accumulate into the new top). -/
def opAdd {σ : Type} : ExecF σ := mkPure (binPeek uadd)

/-- `opSub`. -/
def opSub {σ : Type} : ExecF σ := mkPure (binPeek usub)

/-- `opMul`. -/
def opMul {σ : Type} : ExecF σ := mkPure (binPeek umul)

/-- `opDiv`. -/
def opDiv {σ : Type} : ExecF σ := mkPure (binPeek udiv)

/-- `opSdiv`. -/
def opSdiv {σ : Type} : ExecF σ := mkPure (binPeek usdiv)

/-- `opMod`. -/
def opMod {σ : Type} : ExecF σ := mkPure (binPeek umod)

/-- `opSmod`. -/
def opSmod {σ : Type} : ExecF σ := mkPure (binPeek usmod)

/-- `opExp` (base popped, exponent peeked). -/
def opExp {σ : Type} : ExecF σ := mkPure (binPeek uexp)

/-- `opSignExtend` (byte count popped, number peeked). -/
def opSignExtend {σ : Type} : ExecF σ := mkPure (binPeek usignextend)

/-- `opNot`. -/
def opNot {σ : Type} : ExecF σ := mkPure (supdTop unot)

/-- `opLt`. -/
def opLt {σ : Type} : ExecF σ := mkPure (binPeek ult)

/-- `opGt`. -/
def opGt {σ : Type} : ExecF σ := mkPure (binPeek ugt)

/-- `opSlt`. -/
def opSlt {σ : Type} : ExecF σ := mkPure (binPeek uslt)

/-- `opSgt`. -/
def opSgt {σ : Type} : ExecF σ := mkPure (binPeek usgt)

/-- `opEq`. -/
def opEq {σ : Type} : ExecF σ := mkPure (binPeek ueq)

/-- `opIszero`. -/
def opIszero {σ : Type} : ExecF σ := mkPure (supdTop uiszero)

/-- `opAnd`. -/
def opAnd {σ : Type} : ExecF σ := mkPure (binPeek uand)

/-- `opOr`. -/
def opOr {σ : Type} : ExecF σ := mkPure (binPeek uor)

/-- `opXor`. -/
def opXor {σ : Type} : ExecF σ := mkPure (binPeek uxor)

/-- `opByte` (index popped, value peeked). -/
def opByte {σ : Type} : ExecF σ := mkPure (binPeek ubyte)

/-- `opAddmod` (two pops, result into the new top; zero modulus clears). -/
def opAddmod {σ : Type} : ExecF σ := mkPure (ternPeek uaddmod)

/-- `opMulmod`. -/
def opMulmod {σ : Type} : ExecF σ := mkPure (ternPeek umulmod)

/-- `opSHL` (shift popped, value peeked; shifts `≥ 256` clear). -/
def opSHL {σ : Type} : ExecF σ := mkPure (binPeek ushl)

/-- `opSHR`. -/
def opSHR {σ : Type} : ExecF σ := mkPure (binPeek ushr)

/-- `opSAR`. -/
def opSAR {σ : Type} : ExecF σ := mkPure (binPeek usar)

/-- `opSha3`: hash `memory[offset, offset+size)` (Keccak via the external
oracle) into the new top of the stack. -/
def opSha3 {σ : Type} : ExecF σ := fun ctx =>
  let (offset, s1) := spop ctx.call.stack
  let size := speekI s1 0
  let data := getPtr ctx.call.memory (offset % U64) (size % U64)
  (ctx.setStack (supdTop (fun _ => ctx.keccak data % W256) s1), none)

/-- `opAddress`. -/
def opAddress {σ : Type} : ExecF σ := fun ctx =>
  (ctx.modifyStack (fun s => bytes20 ctx.call.this :: s), none)

/-- `opBalance` is unimplemented in the source (returns a TODO error). -/
def opBalance {σ : Type} : ExecF σ := fun ctx => (ctx, some (.todo 0x31))

/-- `opOrigin`. -/
def opOrigin {σ : Type} : ExecF σ := fun ctx =>
  (ctx.modifyStack (fun s => bytes20 ctx.txOrigin :: s), none)

/-- `opCaller`. -/
def opCaller {σ : Type} : ExecF σ := fun ctx =>
  (ctx.modifyStack (fun s => bytes20 ctx.call.msgSender :: s), none)

/-- `opCallValue` (`uint256.FromBig` of the big-integer message value). -/
def opCallValue {σ : Type} : ExecF σ := fun ctx =>
  (ctx.modifyStack (fun s => ofInt ctx.call.msgValue :: s), none)

/-- `opCallDataLoad`: 32 bytes of call data at the peeked offset, zero-padded;
offsets that overflow a `uint64` clear the top. -/
def opCallDataLoad {σ : Type} : ExecF σ := fun ctx =>
  (ctx.modifyStack (supdTop (fun off =>
    if off < U64 then bytesToNat (getData ctx.call.msgData off 32) else 0)), none)

/-- `opCallDataSize`. -/
def opCallDataSize {σ : Type} : ExecF σ := fun ctx =>
  (ctx.modifyStack (fun s => ctx.call.msgData.length :: s), none)

/-- `opCallDataCopy`: copy call data into memory (data offsets that overflow a
`uint64` are clamped to the maximal `uint64`, producing zero padding). -/
def opCallDataCopy {σ : Type} : ExecF σ := fun ctx =>
  let (memOffset, s1) := spop ctx.call.stack
  let (dataOffset, s2) := spop s1
  let (length, s3) := spop s2
  let dataOffset64 := if dataOffset < U64 then dataOffset else U64 - 1
  ((ctx.setStack s3).modifyMem (fun m =>
      memSet m (memOffset % U64) (length % U64)
        (getData ctx.call.msgData dataOffset64 (length % U64))), none)

/-- `opReturnDataSize` (reads `InnerReturnVal` unconditionally). -/
def opReturnDataSize {σ : Type} : ExecF σ := fun ctx =>
  (ctx.modifyStack (fun s => ctx.call.innerReturnVal.length :: s), none)

/-- `opReturnDataCopy`: bounds-checked copy out of `InnerReturnVal`
(the end offset is a uint256 addition, hence the `% 2 ^ 256`). -/
def opReturnDataCopy {σ : Type} : ExecF σ := fun ctx =>
  let (memOffset, s1) := spop ctx.call.stack
  let (dataOffset, s2) := spop s1
  let (length, s3) := spop s2
  let ctx1 := ctx.setStack s3
  if U64 ≤ dataOffset then (ctx1, some .returnDataOutOfBounds)
  else
    let e := (dataOffset + length) % W256
    if U64 ≤ e ∨ ctx1.call.innerReturnVal.length < e then (ctx1, some .returnDataOutOfBounds)
    else
      (ctx1.modifyMem (fun m =>
        memSet m (memOffset % U64) (length % U64)
          ((ctx1.call.innerReturnVal.drop dataOffset).take (e - dataOffset))), none)

/-- `opExtCodeSize`: resolve the code at the peeked address and write its
length over the top of the stack. -/
def opExtCodeSize {σ : Type} : ExecF σ := fun ctx =>
  let slot := speekI ctx.call.stack 0
  match ensure_code ctx (bytes20 slot) with
  | (ctx1, .error e) => (ctx1, some e)
  | (ctx1, .ok code) => (ctx1.modifyStack (supdTop (fun _ => code.length)), none)

/-- `opCodeSize`: push the length of the code at `address(this)`. -/
def opCodeSize {σ : Type} : ExecF σ := fun ctx =>
  match ensure_code ctx ctx.call.this with
  | (ctx1, .error e) => (ctx1, some e)
  | (ctx1, .ok code) => (ctx1.modifyStack (fun s => code.length :: s), none)

/-- `opCodeCopy`: copy own code (at `this`) into memory. -/
def opCodeCopy {σ : Type} : ExecF σ := fun ctx =>
  let (memOffset, s1) := spop ctx.call.stack
  let (codeOffset, s2) := spop s1
  let (length, s3) := spop s2
  let codeOffset64 := if codeOffset < U64 then codeOffset else U64 - 1
  let ctx1 := ctx.setStack s3
  match ensure_code ctx1 ctx1.call.this with
  | (ctx2, .error e) => (ctx2, some e)
  | (ctx2, .ok code) =>
    (ctx2.modifyMem (fun m =>
      memSet m (memOffset % U64) (length % U64)
        (getData code codeOffset64 (length % U64))), none)

/-- `opExtCodeCopy`: copy a foreign contract's code into memory. -/
def opExtCodeCopy {σ : Type} : ExecF σ := fun ctx =>
  let (a, s1) := spop ctx.call.stack
  let (memOffset, s2) := spop s1
  let (codeOffset, s3) := spop s2
  let (length, s4) := spop s3
  let codeOffset64 := if codeOffset < U64 then codeOffset else U64 - 1
  let ctx1 := ctx.setStack s4
  match ensure_code ctx1 (bytes20 a) with
  | (ctx2, .error e) => (ctx2, some e)
  | (ctx2, .ok code) =>
    (ctx2.modifyMem (fun m =>
      memSet m (memOffset % U64) (length % U64)
        (getData code codeOffset64 (length % U64))), none)

/-- `opExtCodeHash`: Keccak of the resolved code over the top of the stack. -/
def opExtCodeHash {σ : Type} : ExecF σ := fun ctx =>
  let slot := speekI ctx.call.stack 0
  match ensure_code ctx (bytes20 slot) with
  | (ctx1, .error e) => (ctx1, some e)
  | (ctx1, .ok code) => (ctx1.modifyStack (supdTop (fun _ => ctx.keccak code % W256)), none)

/-- `opGasprice`. -/
def opGasprice {σ : Type} : ExecF σ := fun ctx =>
  (ctx.modifyStack (fun s => ctx.txGasPrice :: s), none)

/-- `opBlockhash`: an argument not representable in 64 bits is an error;
otherwise arguments inside `[blockNumber-256, blockNumber)` resolve through
the cache / online resolver and anything else clears the top. -/
def opBlockhash {σ : Type} : ExecF σ := fun ctx =>
  let num := speekI ctx.call.stack 0
  if U64 ≤ num then (ctx, some (.blockHashOverflow num))
  else
    let upper := ctx.blockNumber
    let lower := if upper < 257 then 0 else upper - 256
    if lower ≤ num ∧ num < upper then
      match ensure_block_hash ctx num with
      | (ctx1, .error e) => (ctx1, some e)
      | (ctx1, .ok h) => (ctx1.modifyStack (supdTop (fun _ => h % W256)), none)
    else (ctx.modifyStack (supdTop (fun _ => 0)), none)

/-- `opCoinbase`. -/
def opCoinbase {σ : Type} : ExecF σ := fun ctx =>
  (ctx.modifyStack (fun s => bytes20 ctx.blockCoinbase :: s), none)

/-- `opTimestamp` (the source casts through `int64` and `big.Int`). -/
def opTimestamp {σ : Type} : ExecF σ := fun ctx =>
  (ctx.modifyStack (fun s => ofInt (asInt64 ctx.blockTimestamp) :: s), none)

/-- `opNumber`. -/
def opNumber {σ : Type} : ExecF σ := fun ctx =>
  (ctx.modifyStack (fun s => ofInt (asInt64 ctx.blockNumber) :: s), none)

/-- `opDifficulty`. -/
def opDifficulty {σ : Type} : ExecF σ := fun ctx =>
  (ctx.modifyStack (fun s => ofInt (asInt64 ctx.blockDifficulty) :: s), none)

/-- `opGasLimit`. -/
def opGasLimit {σ : Type} : ExecF σ := fun ctx =>
  (ctx.modifyStack (fun s => ctx.blockGasLimit :: s), none)

/-- `opPop`. -/
def opPop {σ : Type} : ExecF σ := mkPure (fun s => (spop s).2)

/-- `opMload`: replace the top offset by the 32 memory bytes it points at. -/
def opMload {σ : Type} : ExecF σ := fun ctx =>
  (ctx.modifyStack (supdTop (fun v => bytesToNat (getPtr ctx.call.memory (v % U64) 32))), none)

/-- `opMstore`. -/
def opMstore {σ : Type} : ExecF σ := fun ctx =>
  let (ptr, s1) := spop ctx.call.stack
  let (val, s2) := spop s1
  ((ctx.setStack s2).modifyMem (fun m => memSet32 m (ptr % U64) val), none)

/-- `opMstore8`. -/
def opMstore8 {σ : Type} : ExecF σ := fun ctx =>
  let (ptr, s1) := spop ctx.call.stack
  let (val, s2) := spop s1
  ((ctx.setStack s2).modifyMem (fun m => memSet m (ptr % U64) 1 [val % U64 % 256]), none)

/-- `opSload`: storage of `this` through `ensure_storage`, over the top. -/
def opSload {σ : Type} : ExecF σ := fun ctx =>
  let slot := speekI ctx.call.stack 0
  match ensure_storage ctx ctx.call.this slot with
  | (ctx1, .error e) => (ctx1, some e)
  | (ctx1, .ok v) => (ctx1.modifyStack (supdTop (fun _ => v % W256)), none)

/-- `opSstore`: write through to the storage of `this` (the source
dereferences a nil contract and panics when the contract is absent; the model
leaves the contracts untouched there). -/
def opSstore {σ : Type} : ExecF σ := fun ctx =>
  let (slot, s1) := spop ctx.call.stack
  let (val, s2) := spop s1
  let ctx1 := ctx.setStack s2
  match alistGet ctx1.contracts ctx1.call.this with
  | some c =>
    let c1 := { c with storage := alistPut c.storage slot val }
    ({ ctx1 with contracts := alistPut ctx1.contracts ctx1.call.this c1 }, none)
  | none => (ctx1, none)

/-- `opJump`: only the low 64 bits of the popped target are consulted; an
out-of-code target fails with InvalidJump, otherwise the pc is set. -/
def opJump {σ : Type} : ExecF σ := fun ctx =>
  let (pos, s1) := spop ctx.call.stack
  let ctx1 := ctx.setStack s1
  if ctx1.codeBinary.length ≤ pos % U64 then (ctx1, some .invalidJump)
  else (ctx1.setPc (pos % U64), none)

/-- `opJumpi`: jump like `opJump` on a nonzero condition, else `pc+1`. -/
def opJumpi {σ : Type} : ExecF σ := fun ctx =>
  let (pos, s1) := spop ctx.call.stack
  let (cond, s2) := spop s1
  let ctx1 := ctx.setStack s2
  if cond ≠ 0 then
    if ctx1.codeBinary.length ≤ pos % U64 then (ctx1, some .invalidJump)
    else (ctx1.setPc (pos % U64), none)
  else (ctx1.setPc (ctx1.call.pc + 1), none)

/-- `opJumpdest`. -/
def opJumpdest {σ : Type} : ExecF σ := fun ctx => (ctx, none)

/-- `opPc`. -/
def opPc {σ : Type} : ExecF σ := fun ctx =>
  (ctx.modifyStack (fun s => ctx.call.pc :: s), none)

/-- `opMsize`. -/
def opMsize {σ : Type} : ExecF σ := fun ctx =>
  (ctx.modifyStack (fun s => ctx.call.memory.length :: s), none)

/-- `opGas` (gas is carried but never deducted). -/
def opGas {σ : Type} : ExecF σ := fun ctx =>
  (ctx.modifyStack (fun s => ctx.call.msgGas :: s), none)

/-- `opCreate` is unimplemented. -/
def opCreate {σ : Type} : ExecF σ := fun ctx => (ctx, some (.todo 0xf0))

/-- `opCreate2` is unimplemented. -/
def opCreate2 {σ : Type} : ExecF σ := fun ctx => (ctx, some (.todo 0xf5))

/-- `opCallCode` is unimplemented. -/
def opCallCode {σ : Type} : ExecF σ := fun ctx => (ctx, some (.todo 0xf2))

/-- `do_opcall` (shared by CALL and STATICCALL): Berlin precompile addresses
(1..9) run inline — output into `InnerReturnVal` and the caller's return
window, then a success flag is pushed; any other target resolves its code and
pushes a fresh frame recording the return window. -/
def do_opcall {σ : Type} (ctx : Context σ)
    (gas addr value inOffset inSize retOffset retSize : Nat) : Context σ × Option Err :=
  let toAddr := bytes20 addr
  let input := getPtr ctx.call.memory (inOffset % U64) (inSize % U64)
  if 1 ≤ toAddr ∧ toAddr ≤ 9 then
    match ctx.precompileRun toAddr input with
    | none => (ctx, some .precompiledFailed)
    | some output =>
      let ctx1 := ctx.updCall (fun c => { c with innerReturnVal := output })
      let ctx2 := ctx1.modifyMem (fun m => memSet m (retOffset % U64) (retSize % U64) output)
      (ctx2.modifyStack (fun s => 1 :: s), none)
  else
    match ensure_code ctx toAddr with
    | (ctx1, .error e) => (ctx1, some e)
    | (ctx1, .ok _) =>
      let currCall := ctx1.call
      let newCall : Call :=
        { msgData := input, msgGas := currCall.msgGas, msgSender := currCall.this,
          msgValue := (value : Int), this := toAddr, codePtr := none,
          memory := [], stack := [], pc := 0,
          outerReturnOffset := retOffset % U64, outerReturnSize := retSize % U64,
          innerReturnVal := [] }
      ({ ctx1 with callStack := newCall :: ctx1.callStack }, none)

/-- `opCall`: pop the seven operands; an empty input is a bare value transfer
(push a success flag and continue), everything else goes to `do_opcall`. -/
def opCall {σ : Type} : ExecF σ := fun ctx =>
  let (gas, s1) := spop ctx.call.stack
  let (addr, s2) := spop s1
  let (value, s3) := spop s2
  let (inOffset, s4) := spop s3
  let (inSize, s5) := spop s4
  let (retOffset, s6) := spop s5
  let (retSize, s7) := spop s6
  let ctx1 := ctx.setStack s7
  if inSize = 0 then (ctx1.modifyStack (fun s => 1 :: s), none)
  else do_opcall ctx1 gas addr value inOffset inSize retOffset retSize

/-- `opDelegateCall`: six operands; the new frame keeps `this`, sender and
value of the caller and records the callee address in `CodePtr`. -/
def opDelegateCall {σ : Type} : ExecF σ := fun ctx =>
  let (gas, s1) := spop ctx.call.stack
  let (addr, s2) := spop s1
  let (inOffset, s3) := spop s2
  let (inSize, s4) := spop s3
  let (retOffset, s5) := spop s4
  let (retSize, s6) := spop s5
  let _unusedGas := gas
  let ctx1 := ctx.setStack s6
  let toAddr := bytes20 addr
  match ensure_code ctx1 toAddr with
  | (ctx2, .error e) => (ctx2, some e)
  | (ctx2, .ok _) =>
    let currCall := ctx2.call
    let args := getPtr currCall.memory (inOffset % U64) (inSize % U64)
    let newCall : Call :=
      { msgData := args, msgGas := currCall.msgGas, msgSender := currCall.msgSender,
        msgValue := currCall.msgValue, this := currCall.this, codePtr := some toAddr,
        memory := [], stack := [], pc := 0,
        outerReturnOffset := retOffset % U64, outerReturnSize := retSize % U64,
        innerReturnVal := [] }
    ({ ctx2 with callStack := newCall :: ctx2.callStack }, none)

/-- `opStaticCall`: six operands, value fixed to zero, then `do_opcall`. -/
def opStaticCall {σ : Type} : ExecF σ := fun ctx =>
  let (gas, s1) := spop ctx.call.stack
  let (addr, s2) := spop s1
  let (inOffset, s3) := spop s2
  let (inSize, s4) := spop s3
  let (retOffset, s5) := spop s4
  let (retSize, s6) := spop s5
  do_opcall (ctx.setStack s6) gas addr 0 inOffset inSize retOffset retSize

/-- `opReturn`: pop offset and size; for an inner call pop the frame, hand the
output to the outer call (`InnerReturnVal` plus the recorded return window)
and push a success flag there; for the outermost call set `done`. -/
def opReturn {σ : Type} : ExecF σ := fun ctx =>
  let (offset, s1) := spop ctx.call.stack
  let (size, s2) := spop s1
  let output := getPtr ctx.call.memory (offset % U64) (size % U64)
  let retOff := ctx.call.outerReturnOffset
  let retSz := ctx.call.outerReturnSize
  if 1 < ctx.callStack.length then
    match ctx.callStack with
    | _ :: outer :: rest =>
      ({ ctx with callStack :=
          ({ outer with
              innerReturnVal := output,
              memory := memSet outer.memory retOff retSz output,
              stack := 1 :: outer.stack }) :: rest }, none)
    | _ => (ctx, none)
  else ({ ctx.setStack s2 with isDone := true }, none)

/-- `opRevert`: pop offset and size and surface the Reverted error. -/
def opRevert {σ : Type} : ExecF σ := fun ctx =>
  let (offset, s1) := spop ctx.call.stack
  let (size, s2) := spop s1
  let _ := getPtr ctx.call.memory (offset % U64) (size % U64)
  (ctx.setStack s2, some .reverted)

/-- The 0xfe "assert" opcode: a TODO error, the pop in the source is
commented out so the stack is untouched. -/
def opAssert {σ : Type} : ExecF σ := fun ctx => (ctx, some (.todo 0xfe))

/-- `opSuicide` (SELFDESTRUCT): pop the beneficiary and fail. -/
def opSuicide {σ : Type} : ExecF σ := fun ctx =>
  let (beneficiary, s1) := spop ctx.call.stack
  (ctx.setStack s1, some (.suicide beneficiary))

/-- `opChainID`. -/
def opChainID {σ : Type} : ExecF σ := fun ctx =>
  (ctx.modifyStack (fun s => ctx.chainId :: s), none)

/-- `opSelfBalance`: balance of `this` through `ensure_balance`. -/
def opSelfBalance {σ : Type} : ExecF σ := fun ctx =>
  match ensure_balance ctx ctx.call.this with
  | (ctx1, .error e) => (ctx1, some e)
  | (ctx1, .ok bal) => (ctx1.modifyStack (fun s => ofInt bal :: s), none)

/-- `opBaseFee`. -/
def opBaseFee {σ : Type} : ExecF σ := fun ctx =>
  (ctx.modifyStack (fun s => ctx.blockBaseFee :: s), none)

/-- `makePush n`: fail when fewer than `n` immediate bytes remain, otherwise
push them big-endian and advance the pc by `n` (the driver adds the +1). -/
def makePush {σ : Type} (n : Nat) : ExecF σ := fun ctx =>
  let code := ctx.codeBinary
  let pc := ctx.call.pc
  if code.length < pc + 1 + n then (ctx, some .pushNotEnoughData)
  else
    let ctx1 := ctx.modifyStack (fun s => bytesToNat ((code.drop (pc + 1)).take n) :: s)
    (ctx1.setPc (pc + n), none)

/-- `makeDup n`. -/
def makeDup {σ : Type} (n : Nat) : ExecF σ := mkPure (sdup n)

/-- `makeSwap n` (the source increments before calling `Stack.Swap`, which
amounts to swapping the top with the item at depth `n`). -/
def makeSwap {σ : Type} (n : Nat) : ExecF σ := mkPure (sswapIdx n)

/-- `makeLog n`: pop `2 + n` operands, one at a time in the source. -/
def makeLog {σ : Type} (n : Nat) : ExecF σ := mkPure (fun s => s.drop (2 + n))

/-- Exec-function dispatcher: the exec half of the `OpTable` entries.  The
PUSH/DUP/SWAP/LOG families mirror the `makePush(1..32)` etc. generators of
the source `init`.  An opcode outside the table has no entry (Go would call
through a nil `*Operation`). -/
def execFor {σ : Type} (opc : Nat) : ExecF σ :=
  if 0x60 ≤ opc ∧ opc ≤ 0x7f then makePush (opc - 0x5f)
  else if 0x80 ≤ opc ∧ opc ≤ 0x8f then makeDup (opc - 0x7f)
  else if 0x90 ≤ opc ∧ opc ≤ 0x9f then makeSwap (opc - 0x8f)
  else if 0xa0 ≤ opc ∧ opc ≤ 0xa4 then makeLog (opc - 0xa0)
  else
    match opc with
    | 0x00 => opStop
    | 0x01 => opAdd
    | 0x02 => opMul
    | 0x03 => opSub
    | 0x04 => opDiv
    | 0x05 => opSdiv
    | 0x06 => opMod
    | 0x07 => opSmod
    | 0x08 => opAddmod
    | 0x09 => opMulmod
    | 0x0a => opExp
    | 0x0b => opSignExtend
    | 0x10 => opLt
    | 0x11 => opGt
    | 0x12 => opSlt
    | 0x13 => opSgt
    | 0x14 => opEq
    | 0x15 => opIszero
    | 0x16 => opAnd
    | 0x17 => opOr
    | 0x18 => opXor
    | 0x19 => opNot
    | 0x1a => opByte
    | 0x1b => opSHL
    | 0x1c => opSHR
    | 0x1d => opSAR
    | 0x20 => opSha3
    | 0x30 => opAddress
    | 0x31 => opBalance
    | 0x32 => opOrigin
    | 0x33 => opCaller
    | 0x34 => opCallValue
    | 0x35 => opCallDataLoad
    | 0x36 => opCallDataSize
    | 0x37 => opCallDataCopy
    | 0x38 => opCodeSize
    | 0x39 => opCodeCopy
    | 0x3a => opGasprice
    | 0x3b => opExtCodeSize
    | 0x3c => opExtCodeCopy
    | 0x3d => opReturnDataSize
    | 0x3e => opReturnDataCopy
    | 0x3f => opExtCodeHash
    | 0x40 => opBlockhash
    | 0x41 => opCoinbase
    | 0x42 => opTimestamp
    | 0x43 => opNumber
    | 0x44 => opDifficulty
    | 0x45 => opGasLimit
    | 0x46 => opChainID
    | 0x47 => opSelfBalance
    | 0x48 => opBaseFee
    | 0x50 => opPop
    | 0x51 => opMload
    | 0x52 => opMstore
    | 0x53 => opMstore8
    | 0x54 => opSload
    | 0x55 => opSstore
    | 0x56 => opJump
    | 0x57 => opJumpi
    | 0x5b => opJumpdest
    | 0x58 => opPc
    | 0x59 => opMsize
    | 0x5a => opGas
    | 0xf0 => opCreate
    | 0xf1 => opCall
    | 0xf2 => opCallCode
    | 0xf3 => opReturn
    | 0xf4 => opDelegateCall
    | 0xf5 => opCreate2
    | 0xfa => opStaticCall
    | 0xfd => opRevert
    | 0xfe => opAssert
    | 0xff => opSuicide
    | _ => fun ctx => (ctx, some .nilDeref)

/-- `Operation`: table metadata plus the exec function. -/
structure Operation (σ : Type) where
  meta : OpMeta
  exec : ExecF σ

/-- `OpTable[opcode]`: metadata looked up in the table, paired with the
dispatched exec function. -/
def lookupOp {σ : Type} (opc : Nat) : Option (Operation σ) :=
  (lookupMeta opc).map (fun m => ⟨m, execFor opc⟩)

/-- The error-accumulator update of the hook loops: a non-nil error from the
current hook overwrites whatever was collected before. -/
def overrideErr (e acc : Option Err) : Option Err :=
  match e with
  | some e1 => some e1
  | none => acc

/-- `Hooks.PreRunAll` (hook.go): invoke every hook's PreRun in attach order —
errors do not stop the loop — updating each receiver, and return the LAST
non-nil error (later errors overwrite earlier ones). -/
def preRunAll {σ : Type} (hooks : List (Hook σ)) (c : Call) (l : Line) :
    List (Hook σ) × Option Err :=
  hooks.foldl
    (fun acc h =>
      (acc.1 ++ [{ h with st := (h.pre h.st c l).1 }],
        overrideErr (h.pre h.st c l).2 acc.2))
    ([], none)

/-- `Hooks.PostRunAll`: the same loop over the PostRun callbacks. -/
def postRunAll {σ : Type} (hooks : List (Hook σ)) (c : Call) (l : Line) :
    List (Hook σ) × Option Err :=
  hooks.foldl
    (fun acc h =>
      (acc.1 ++ [{ h with st := (h.post h.st c l).1 }],
        overrideErr (h.post h.st c l).2 acc.2))
    ([], none)

/-- `Hooks.Attach`. -/
def Hooks.attach {σ : Type} (hooks : List (Hook σ)) (h : Hook σ) : List (Hook σ) :=
  hooks ++ [h]

/-- `Hooks.Detach i` (a Go `int` index): indices out of `[0, len)` leave the
chain unchanged; in range, `append(arr[0:i], arr[i+1:]...)` removes slot `i`. -/
def Hooks.detach {σ : Type} (hooks : List (Hook σ)) (i : Int) : List (Hook σ) :=
  if 0 ≤ i ∧ i < (hooks.length : Int) then
    hooks.take i.toNat ++ hooks.drop (i.toNat + 1)
  else hooks

/-- `Asm.LineAtPc`. -/
def Asm.lineAtPc (a : Asm) (pc : Nat) : Except Err Line :=
  match alistGet a.mapPc pc with
  | some line => .ok line
  | none => .error (.invalidPc pc)

/-- `Context.Line()`: the line at the current pc through the current code
address (a missing contract or a nil `Asm` is a Go nil dereference). -/
def Context.lineAt {σ : Type} (ctx : Context σ) : Except Err Line :=
  match alistGet ctx.contracts ctx.call.codeAddress with
  | none => .error .nilDeref
  | some c =>
    match c.codeAsm with
    | none => .error .nilDeref
    | some asm => asm.lineAtPc ctx.call.pc

/-- The driver's `call.Pc += 1` goes through the pointer captured at the top
of the loop: after a frame push that frame sits at index 1, after a frame pop
it is unreachable (Go mutates the dead object, a no-op on the context). -/
def bumpCapturedPc {σ : Type} (preLen : Nat) (ctx : Context σ) : Context σ :=
  if ctx.callStack.length = preLen + 1 then
    { ctx with callStack :=
        match ctx.callStack with
        | c :: o :: r => c :: { o with pc := o.pc + 1 } :: r
        | l => l }
  else if ctx.callStack.length = preLen then
    ctx.updCall (fun c => { c with pc := c.pc + 1 })
  else ctx

/-- The captured \*Call pointer as the PostRun hooks see it: the frame at
index 0 (ordinary opcodes) or 1 (after a frame push); after a frame pop the
Go pointer shows the dead popped frame, approximated here by its pre-exec
value (no claim depends on that argument). -/
def capturedFrame {σ : Type} (preTop : Call) (preLen : Nat) (ctx : Context σ) : Call :=
  if ctx.callStack.length = preLen + 1 then ctx.callStack.getD 1 defCall
  else if ctx.callStack.length = preLen then ctx.call
  else preTop

/-- Driver pc advance: `+1` through the captured frame pointer unless the
opcode was JUMP (0x56) or JUMPI (0x57), which set the pc themselves. -/
def stepPc {σ : Type} (opc : Nat) (preLen : Nat) (ctx : Context σ) : Context σ :=
  if opc ≠ 0x56 ∧ opc ≠ 0x57 then bumpCapturedPc preLen ctx else ctx

/-- Tail of one `Run` iteration after the PreRun phase: execute the opcode
(an exec error aborts), advance the captured frame's pc unless the opcode was
JUMP/JUMPI, run the PostRun phase (its error always aborts), then continue
with `recur`. -/
def stepTail {σ : Type} (opc : Nat) (op : Operation σ) (line : Line) (preTop : Call)
    (preLen : Nat) (recur : Context σ → Option (Context σ × Option Err))
    (ctx1 : Context σ) : Option (Context σ × Option Err) :=
  match op.exec ctx1 with
  | (ctx2, some e) => some (ctx2, some e)
  | (ctx2, none) =>
    let ctx3 := stepPc opc preLen ctx2
    match postRunAll ctx3.hooks (capturedFrame preTop preLen ctx3) line with
    | (hooks2, some e) => some ({ ctx3 with hooks := hooks2 }, some e)
    | (hooks2, none) => recur { ctx3 with hooks := hooks2 }

/-- `Context.Run` loop (`steps` as in the source: 0 stops, negative runs until
done or error).  `isFirst` is true only on the first iteration, whose PreRun
error is ignored; every later iteration runs with it false.  The `fuel`
argument makes the loop a total function: `none` means fuel ran out with the
loop still going (the source loop would simply continue). -/
def runLoop {σ : Type} : Nat → Bool → Int → Context σ → Option (Context σ × Option Err)
  | 0, _, _, _ => none
  | fuel + 1, isFirst, steps, ctx =>
    if steps = 0 ∨ ctx.isDone then some (ctx, none)
    else
      match ctx.lineAt with
      | .error e => some (ctx, some e)
      | .ok line =>
        match @lookupOp σ line.op.opCode with
        | none => some (ctx, some .nilDeref)
        | some op =>
          let preTop := ctx.call
          let preLen := ctx.callStack.length
          let (hooks1, eh) := preRunAll ctx.hooks preTop line
          let ctx1 := { ctx with hooks := hooks1 }
          if eh.isSome ∧ isFirst = false then some (ctx1, eh)
          else stepTail line.op.opCode op line preTop preLen
                 (fun c => runLoop fuel false (steps - 1) c) ctx1

/-- `Context.Run`: the loop starting with `is_first_step = true`. -/
def Context.run {σ : Type} (ctx : Context σ) (steps : Int) (fuel : Nat) :
    Option (Context σ × Option Err) :=
  runLoop fuel true steps ctx

/-- Number of operand-stack slots an opcode's exec actually reads (pops and
peeks): the arity a valid pre-state must provide.  It differs from the
table's `nStackIn` for ADDMOD/MULMOD (3, table says 2), CALLDATALOAD /
EXTCODESIZE / EXTCODEHASH / BLOCKHASH / MLOAD / SLOAD / ISZERO / NOT
(peek-in-place), DUPn / SWAPn (deep peeks the table does not record), the
0xfe assert (its pop is commented out) and BALANCE (unimplemented). -/
def realArity (opc : Nat) : Nat :=
  if 0x60 ≤ opc ∧ opc ≤ 0x7f then 0
  else if 0x80 ≤ opc ∧ opc ≤ 0x8f then opc - 0x7f
  else if 0x90 ≤ opc ∧ opc ≤ 0x9f then opc - 0x8e
  else if 0xa0 ≤ opc ∧ opc ≤ 0xa4 then opc - 0xa0 + 2
  else
    match opc with
    | 0x01 | 0x02 | 0x03 | 0x04 | 0x05 | 0x06 | 0x07 | 0x0a | 0x0b => 2
    | 0x10 | 0x11 | 0x12 | 0x13 | 0x14 | 0x16 | 0x17 | 0x18 | 0x1a => 2
    | 0x1b | 0x1c | 0x1d | 0x20 => 2
    | 0x08 | 0x09 => 3
    | 0x15 | 0x19 | 0x35 | 0x3b | 0x3f | 0x40 | 0x50 | 0x51 | 0x54 | 0x56 | 0xff => 1
    | 0x37 | 0x39 | 0x3e => 3
    | 0x3c => 4
    | 0x52 | 0x53 | 0x55 | 0x57 | 0xf3 | 0xfd => 2
    | 0xf1 => 7
    | 0xf4 | 0xfa => 6
    | _ => 0

/-- The stack-depth change the exec functions actually perform on a
successful execution, as a function of the table entry and the pre-state:
`nStackOut - nStackIn` except for ADDMOD/MULMOD (-2: they consume three),
CALLDATALOAD/EXTCODESIZE (0: they replace the top in place), CALL on the
bare-value-transfer or precompile paths (-6: a success flag is pushed) and
STATICCALL on the precompile path (-5). -/
def amendedDelta {σ : Type} (opc : Nat) (m : OpMeta) (ctx : Context σ) : Int :=
  match opc with
  | 0x08 | 0x09 => -2
  | 0x35 | 0x3b => 0
  | 0xf1 =>
    if speekI ctx.call.stack 4 = 0
        ∨ (1 ≤ bytes20 (speekI ctx.call.stack 1) ∧ bytes20 (speekI ctx.call.stack 1) ≤ 9)
    then -6 else -7
  | 0xfa =>
    if 1 ≤ bytes20 (speekI ctx.call.stack 1) ∧ bytes20 (speekI ctx.call.stack 1) ≤ 9
    then -5 else -6
  | _ => (m.nStackOut : Int) - (m.nStackIn : Int)

/-- Stack-depth effect of one exec function on pre-state `ctx`: the executing
frame's operand stack changes by `d` when the frame survives; a pushed frame
starts with an empty stack while the caller (now at index 1) changes by `d`;
a popped frame hands the outer frame exactly one success flag.  The final
disjunction states that an exec never changes the call-stack depth by more
than one. -/
def StackDeltaOK {σ : Type} (e : ExecF σ) (ctx : Context σ) (d : Int) : Prop :=
  ((e ctx).1.callStack.length = ctx.callStack.length →
      (((e ctx).1.call.stack.length : Int) = (ctx.call.stack.length : Int) + d))
  ∧ ((e ctx).1.callStack.length = ctx.callStack.length + 1 →
      ((((e ctx).1.callStack.getD 1 defCall).stack.length : Int)
          = (ctx.call.stack.length : Int) + d)
      ∧ (e ctx).1.call.stack.length = 0)
  ∧ ((e ctx).1.callStack.length + 1 = ctx.callStack.length →
      (e ctx).1.call.stack.length = (ctx.callStack.getD 1 defCall).stack.length + 1)
  ∧ ((e ctx).1.callStack.length = ctx.callStack.length
      ∨ (e ctx).1.callStack.length = ctx.callStack.length + 1
      ∨ (e ctx).1.callStack.length + 1 = ctx.callStack.length)

/-- Modelled from the spec's words ("the last non-null error from the phase
is returned"): the last `some` element of the per-hook error list — none for
an empty list, and for a cons the last error of the tail when there is one,
otherwise the head. -/
def lastErr (es : List (Option Err)) : Option Err :=
  es.foldr
    (fun e acc =>
      match acc with
      | some x => some x
      | none => e)
    none

/-- Witness contract: JUMPDEST; STOP — two bytes, disassembled. -/
def sampleContract : Contract :=
  match newContract.codeSet [0x5b, 0x00] with
  | .ok c => c
  | .error _ => newContract

/-- Witness context: one frame running `sampleContract` with a given stack. -/
def sampleCtx (stack : List Nat) : Context Unit :=
  { isDone := false
    ethClient := none
    chainId := 1
    txOrigin := 7
    txGasPrice := 2
    blockNumber := 1000
    blockTimestamp := 5
    blockDifficulty := 0
    blockCoinbase := 9
    blockGasLimit := 100
    blockBaseFee := 3
    contracts := [(0xabc, sampleContract)]
    callStack := [{ defCall with this := 0xabc, stack := stack }]
    hooks := []
    blockHashes := [(999, 0x1234)]
    keccak := fun _ => 17
    precompileRun := fun _ _ => some [] }

/-- Witness context with hooks attached. -/
def sampleCtxH (stack : List Nat) (hooks : List (Hook Unit)) : Context Unit :=
  { sampleCtx stack with hooks := hooks }

/-- The first line of `sampleContract` (pc 0: JUMPDEST). -/
def sampleLine : Line := ⟨0, 0, ⟨0x5b, 0, 0, 0⟩, []⟩

/-- Witness hook: a breakpoint-style hook erroring in PreRun, silent in PostRun. -/
def bpSampleHook : Hook Unit :=
  { st := ()
    pre := fun s _ _ => (s, some .breakpoint)
    post := fun s _ _ => (s, none) }

/-- Witness hook: silent in PreRun, errors in PostRun. -/
def postErrSampleHook : Hook Unit :=
  { st := ()
    pre := fun s _ _ => (s, none)
    post := fun s _ _ => (s, some .reverted) }

/-! ## Theorems -/

/-- Length of `memResize` output. -/
theorem memResize_length (store : List Nat) (size : Nat) :
    (memResize store size).length = max store.length size := by
  unfold memResize
  split <;> simp <;> omega

/-- Length of `listCopy` is the length of the destination when the write fits. -/
theorem listCopy_length (l : List Nat) (i : Nat) (src : List Nat)
    (h : i + src.length ≤ l.length) :
    (listCopy l i src).length = l.length := by
  unfold listCopy
  simp
  omega

/-- Length of `natToBytes32`. -/
theorem natToBytes32_length (x : Nat) : (natToBytes32 x).length = 32 := by
  simp [natToBytes32]

/-- C9: Memory.Set with size 0 is a complete no-op, whatever the offset. -/
theorem memSet_size_zero (store : List Nat) (offset : Nat) (value : List Nat) :
    memSet store offset 0 value = store := rfl

/-- C7 counterexample: a one-byte write into empty memory leaves a backing
vector of length 1, which is not 32-byte aligned. -/
theorem memSet_not_aligned :
    (memSet [] 0 1 [0xab]).length = 1 ∧ ¬ (32 ∣ (memSet [] 0 1 [0xab]).length) := by
  decide

/-- C7 amended: memory ops grow the store to exactly the requested end
(no 32-byte alignment): Set to `offset+size` (no-op when size is 0),
Set32 to `offset+32`, Resize to `size`. -/
theorem mem_growth_exact (store : List Nat) (offset size : Nat) (value : List Nat) (w : Nat)
    (h : offset + size < U64) (h32 : offset + 32 < U64) :
    (memSet store offset size value).length
        = (if size = 0 then store.length else max store.length (offset + size))
    ∧ (memSet32 store offset w).length = max store.length (offset + 32)
    ∧ ∀ sz, (memResize store sz).length = max store.length sz := by
  refine ⟨?_, ?_, fun sz => memResize_length store sz⟩
  · unfold memSet
    by_cases hs : 0 < size
    · have hsz : size ≠ 0 := by omega
      simp only [hs, if_true, hsz, if_false]
      rw [Nat.mod_eq_of_lt h]
      rw [listCopy_length, memResize_length]
      rw [memResize_length]
      have : (value.take size).length ≤ size := by
        simp [List.length_take]
      omega
    · have hsz : size = 0 := by omega
      simp [hsz]
  · unfold memSet32
    rw [Nat.mod_eq_of_lt h32]
    rw [listCopy_length, memResize_length]
    rw [memResize_length, natToBytes32_length]
    omega

/-- C7 amended witness. -/
theorem mem_growth_exact_witness :
    (memSet [1, 2] 3 5 [9]).length
        = (if (5 : Nat) = 0 then ([1, 2] : List Nat).length
           else max ([1, 2] : List Nat).length (3 + 5))
    ∧ (memSet32 [1, 2] 3 7).length = max ([1, 2] : List Nat).length (3 + 32)
    ∧ ∀ sz, (memResize [1, 2] sz).length = max ([1, 2] : List Nat).length sz :=
  mem_growth_exact [1, 2] 3 5 [9] 7 (by decide) (by decide)

/-- C10: Detach with an out-of-range index (negative included) leaves the
chain unchanged; in range it removes exactly the i-th hook, preserving the
order of the rest. -/
theorem detach_eraseIdx {σ : Type} (hooks : List (Hook σ)) (i : Int) :
    Hooks.detach hooks i
      = if 0 ≤ i ∧ i < (hooks.length : Int) then hooks.eraseIdx i.toNat else hooks := by
  unfold Hooks.detach
  split
  · rw [List.eraseIdx_eq_take_drop_succ]
  · rfl

/-- Last non-nil error of a cons. -/
theorem lastErr_cons (x : Option Err) (xs : List (Option Err)) :
    lastErr (x :: xs) = overrideErr (lastErr xs) x := rfl

/-- Characterization of the hook-phase fold with a general accumulator. -/
theorem hookFold_spec {σ : Type} (step : Hook σ → σ × Option Err) (hooks : List (Hook σ))
    (acc1 : List (Hook σ)) (acc2 : Option Err) :
    hooks.foldl
      (fun acc h =>
        (acc.1 ++ [{ h with st := (step h).1 }], overrideErr (step h).2 acc.2))
      (acc1, acc2)
    = (acc1 ++ hooks.map (fun h => { h with st := (step h).1 }),
       overrideErr (lastErr (hooks.map (fun h => (step h).2))) acc2) := by
  induction hooks generalizing acc1 acc2 with
  | nil => simp [lastErr, overrideErr]
  | cons h t ih =>
    simp only [List.foldl_cons, List.map_cons]
    rw [ih, lastErr_cons]
    simp only [Prod.mk.injEq]
    constructor
    · simp
    · cases lastErr (t.map (fun h => (step h).2)) <;> cases (step h).2 <;>
        simp [overrideErr]

/-- C3: both hook phases run every hook in attach order (each receiver is
updated) regardless of intermediate errors, and return the LAST non-nil
error of the phase. -/
theorem hook_chain_last_error {σ : Type} (hooks : List (Hook σ)) (c : Call) (l : Line) :
    preRunAll hooks c l
      = (hooks.map (fun h => { h with st := (h.pre h.st c l).1 }),
         lastErr (hooks.map (fun h => (h.pre h.st c l).2)))
    ∧ postRunAll hooks c l
      = (hooks.map (fun h => { h with st := (h.post h.st c l).1 }),
         lastErr (hooks.map (fun h => (h.post h.st c l).2))) := by
  constructor
  · unfold preRunAll
    rw [hookFold_spec (fun h => h.pre h.st c l)]
    cases lastErr (hooks.map (fun h => (h.pre h.st c l).2)) <;> simp [overrideErr]
  · unfold postRunAll
    rw [hookFold_spec (fun h => h.post h.st c l)]
    cases lastErr (hooks.map (fun h => (h.post h.st c l).2)) <;> simp [overrideErr]

/-- C5 evidence: on input 0x00ffff the recorded metadata length 0xffff
exceeds the remaining bytes and the disassembler aborts (the Go slice bound
is negative), while warning inputs (a truncated PUSH1 here) return normally
with the lines produced so far. -/
theorem disasm_metadata_abort :
    Asm.disasm [0x00, 0xff, 0xff] = none
    ∧ Asm.disasm [0x60] = some ⟨[], []⟩ := by
  constructor
  · decide
  · decide

/-- A nonempty operand stack forces a nonempty call stack. -/
theorem callStack_cons_of_stack_cons {σ : Type} (ctx : Context σ) (x : Nat) (r : List Nat)
    (h : ctx.call.stack = x :: r) : ∃ c t, ctx.callStack = c :: t := by
  cases hcs : ctx.callStack with
  | nil =>
    rw [Context.call, hcs] at h
    simp [defCall] at h
  | cons c t => exact ⟨c, t, rfl⟩

/-- The current call of a context whose call stack is a cons. -/
theorem call_of_cons {σ : Type} (ctx : Context σ) (c : Call) (t : List Call)
    (h : ctx.callStack = c :: t) : ctx.call = c := by
  rw [Context.call, h]
  rfl

/-- C4: with any shift of at least 256 (values beyond 64 bits included),
SHL and SHR leave zero in place of the operands, and SAR leaves zero for a
non-negative word and all ones for a negative word. -/
theorem shift_ge_256 {σ : Type} (ctx : Context σ) (s w : Nat) (rest : List Nat)
    (hstack : ctx.call.stack = s :: w :: rest) (hs : 256 ≤ s) (hw : w < W256) :
    ((opSHL ctx).1.call.stack = 0 :: rest ∧ (opSHL ctx).2 = none)
    ∧ ((opSHR ctx).1.call.stack = 0 :: rest ∧ (opSHR ctx).2 = none)
    ∧ ((opSAR ctx).1.call.stack = (if w < 2 ^ 255 then 0 else W256 - 1) :: rest
        ∧ (opSAR ctx).2 = none) := by
  obtain ⟨c, t, hcs⟩ := callStack_cons_of_stack_cons ctx s (w :: rest) hstack
  have hc : ctx.call = c := call_of_cons ctx c t hcs
  rw [hc] at hstack
  have key : ∀ f : Nat → Nat → Nat,
      (@mkPure σ (binPeek f) ctx).1.call.stack = f s w :: rest
      ∧ (@mkPure σ (binPeek f) ctx).2 = none := by
    intro f
    constructor
    · rw [mkPure, Context.modifyStack, Context.updCall, hcs]
      simp [Context.call, hstack, binPeek, spop, supdTop]
    · rfl
  have hshl : ushl s w = 0 := by
    rw [ushl, if_neg]
    omega
  have hshr : ushr s w = 0 := by
    rw [ushr, if_neg]
    omega
  have hsar : usar s w = if w < 2 ^ 255 then 0 else W256 - 1 := by
    by_cases h256 : 256 < s
    · rw [usar, if_pos h256]
    · have hs' : s = 256 := by omega
      subst hs'
      rw [usar, if_neg (by omega), srsh]
      have hdiv : w / 2 ^ 256 = 0 := Nat.div_eq_of_lt hw
      rw [hdiv]
      split <;> norm_num
  refine ⟨⟨?_, (key ushl).2⟩, ⟨?_, (key ushr).2⟩, ⟨?_, (key usar).2⟩⟩
  · rw [show @opSHL σ = @mkPure σ (binPeek ushl) from rfl, (key ushl).1, hshl]
  · rw [show @opSHR σ = @mkPure σ (binPeek ushr) from rfl, (key ushr).1, hshr]
  · rw [show @opSAR σ = @mkPure σ (binPeek usar) from rfl, (key usar).1, hsar]

/-- C4 witness. -/
theorem shift_ge_256_witness :
    ((opSHL (sampleCtx [2 ^ 70, 2 ^ 255, 6])).1.call.stack = 0 :: [6]
        ∧ (opSHL (sampleCtx [2 ^ 70, 2 ^ 255, 6])).2 = none)
    ∧ ((opSHR (sampleCtx [2 ^ 70, 2 ^ 255, 6])).1.call.stack = 0 :: [6]
        ∧ (opSHR (sampleCtx [2 ^ 70, 2 ^ 255, 6])).2 = none)
    ∧ ((opSAR (sampleCtx [2 ^ 70, 2 ^ 255, 6])).1.call.stack
          = (if 2 ^ 255 < 2 ^ 255 then 0 else W256 - 1) :: [6]
        ∧ (opSAR (sampleCtx [2 ^ 70, 2 ^ 255, 6])).2 = none) :=
  shift_ge_256 (sampleCtx [2 ^ 70, 2 ^ 255, 6]) (2 ^ 70) (2 ^ 255) [6] rfl
    (by norm_num) (by norm_num [W256])

/-- Projections `updCall` leaves untouched. -/
theorem updCall_contracts {σ : Type} (f : Call → Call) (ctx : Context σ) :
    (Context.updCall f ctx).contracts = ctx.contracts := rfl

/-- Hook chain is untouched by `updCall`. -/
theorem updCall_hooks {σ : Type} (f : Call → Call) (ctx : Context σ) :
    (Context.updCall f ctx).hooks = ctx.hooks := rfl

/-- Call stack of `updCall` on a cons. -/
theorem updCall_callStack {σ : Type} (f : Call → Call) (ctx : Context σ) (c : Call)
    (t : List Call) (hcs : ctx.callStack = c :: t) :
    (Context.updCall f ctx).callStack = f c :: t := by
  rw [Context.updCall, hcs]

/-- Current call of `updCall` on a cons. -/
theorem updCall_call {σ : Type} (f : Call → Call) (ctx : Context σ) (c : Call)
    (t : List Call) (hcs : ctx.callStack = c :: t) :
    (Context.updCall f ctx).call = f c := by
  rw [Context.call, updCall_callStack f ctx c t hcs]
  rfl

/-- Replacing the current call's stack does not change which code executes. -/
theorem codeBinary_setStack {σ : Type} (ctx : Context σ) (c : Call) (t : List Call)
    (s1 : List Nat) (hcs : ctx.callStack = c :: t) :
    (Context.setStack s1 ctx).codeBinary = ctx.codeBinary := by
  rw [Context.codeBinary, Context.codeBinary, Context.setStack, Context.modifyStack]
  rw [updCall_contracts, updCall_call _ ctx c t hcs, call_of_cons ctx c t hcs]
  rfl

/-- C8: JUMP, and JUMPI with a nonzero condition, consult only the low 64
bits of the popped target: the jump succeeds and sets the pc to
`target % 2^64` whenever that value is below the code length (targets at or
above `2^64` included), and fails with InvalidJump exactly otherwise. -/
theorem jump_low_64_bits {σ : Type} (ctx : Context σ) :
    (∀ pos rest, ctx.call.stack = pos :: rest →
      ((pos % U64 < ctx.codeBinary.length →
          (opJump ctx).2 = none
          ∧ (opJump ctx).1.call.pc = pos % U64
          ∧ (opJump ctx).1.call.stack = rest)
       ∧ (ctx.codeBinary.length ≤ pos % U64 →
          (opJump ctx).2 = some .invalidJump
          ∧ (opJump ctx).1.call.stack = rest)))
    ∧ (∀ pos cond rest, ctx.call.stack = pos :: cond :: rest → cond ≠ 0 →
      ((pos % U64 < ctx.codeBinary.length →
          (opJumpi ctx).2 = none
          ∧ (opJumpi ctx).1.call.pc = pos % U64
          ∧ (opJumpi ctx).1.call.stack = rest)
       ∧ (ctx.codeBinary.length ≤ pos % U64 →
          (opJumpi ctx).2 = some .invalidJump
          ∧ (opJumpi ctx).1.call.stack = rest))) := by
  constructor
  · intro pos rest hstack
    obtain ⟨c, t, hcs⟩ := callStack_cons_of_stack_cons ctx pos rest hstack
    have hc : ctx.call = c := call_of_cons ctx c t hcs
    rw [hc] at hstack
    have hcode := codeBinary_setStack ctx c t rest hcs
    rw [opJump]
    simp only [hc, hstack, spop, hcode]
    constructor
    · intro hlt
      rw [if_neg (by omega)]
      refine ⟨rfl, ?_, ?_⟩
      · rw [Context.setPc, Context.setStack, Context.modifyStack, Context.updCall,
          Context.updCall, hcs]
        rfl
      · rw [Context.setPc, Context.setStack, Context.modifyStack, Context.updCall,
          Context.updCall, hcs]
        rfl
    · intro hge
      rw [if_pos (by omega)]
      refine ⟨rfl, ?_⟩
      rw [Context.setStack, Context.modifyStack, Context.updCall, hcs]
      rfl
  · intro pos cond rest hstack hcond
    obtain ⟨c, t, hcs⟩ := callStack_cons_of_stack_cons ctx pos (cond :: rest) hstack
    have hc : ctx.call = c := call_of_cons ctx c t hcs
    rw [hc] at hstack
    have hcode := codeBinary_setStack ctx c t rest hcs
    rw [opJumpi]
    simp only [hc, hstack, spop, hcode]
    rw [if_pos hcond]
    constructor
    · intro hlt
      rw [if_neg (by omega)]
      refine ⟨rfl, ?_, ?_⟩
      · rw [Context.setPc, Context.setStack, Context.modifyStack, Context.updCall,
          Context.updCall, hcs]
        rfl
      · rw [Context.setPc, Context.setStack, Context.modifyStack, Context.updCall,
          Context.updCall, hcs]
        rfl
    · intro hge
      rw [if_pos (by omega)]
      refine ⟨rfl, ?_⟩
      rw [Context.setStack, Context.modifyStack, Context.updCall, hcs]
      rfl

/-- C8 witness: a target of `2^64 + 1` jumps to pc 1 inside two-byte code. -/
theorem jump_low_64_bits_witness :
    (opJump (sampleCtx [2 ^ 64 + 1, 77])).2 = none
    ∧ (opJump (sampleCtx [2 ^ 64 + 1, 77])).1.call.pc = (2 ^ 64 + 1) % U64
    ∧ (opJump (sampleCtx [2 ^ 64 + 1, 77])).1.call.stack = [77] :=
  ((jump_low_64_bits (sampleCtx [2 ^ 64 + 1, 77])).1 (2 ^ 64 + 1) [77] rfl).1 (by decide)

/-- C6 counterexample: with the sample block number 1000, the argument
`2^64` lies outside `[744, 1000)`, yet BLOCKHASH does not push 0 — it
returns an overflow error and leaves the stack untouched. -/
theorem opBlockhash_overflow_cex :
    (opBlockhash (sampleCtx [2 ^ 64])).2 = some (.blockHashOverflow (2 ^ 64))
    ∧ (opBlockhash (sampleCtx [2 ^ 64])).1.call.stack = [2 ^ 64] := by
  constructor
  · rfl
  · rfl

/-- C6 amended: BLOCKHASH distinguishes three cases on the peeked argument
`n`: at or above `2^64` the exec errors with an overflow message (nothing is
pushed); below `2^64` and inside `[blockNumber-256, blockNumber)` the hash is
resolved through the cache, else through the online client (caching the
result), and written over the top of the stack; below `2^64` but outside the
interval zero is written over the top. -/
theorem opBlockhash_cases {σ : Type} (ctx : Context σ) (n : Nat) (rest : List Nat)
    (hstack : ctx.call.stack = n :: rest) :
    (U64 ≤ n → opBlockhash ctx = (ctx, some (.blockHashOverflow n)))
    ∧ (n < U64 → ¬ (ctx.blockNumber - 256 ≤ n ∧ n < ctx.blockNumber) →
        (opBlockhash ctx).2 = none ∧ (opBlockhash ctx).1.call.stack = 0 :: rest)
    ∧ (n < U64 → ctx.blockNumber - 256 ≤ n → n < ctx.blockNumber →
        ((∀ h, alistGet ctx.blockHashes n = some h →
            opBlockhash ctx = (Context.modifyStack (supdTop (fun _ => h % W256)) ctx, none))
         ∧ (∀ cl h, alistGet ctx.blockHashes n = none → ctx.ethClient = some cl →
              cl.blockHashAt n = some h →
              (opBlockhash ctx).2 = none
              ∧ (opBlockhash ctx).1.call.stack = h % W256 :: rest
              ∧ (opBlockhash ctx).1.blockHashes = alistPut ctx.blockHashes n h)
         ∧ (∀ e, (ensure_block_hash ctx n).2 = .error e →
              opBlockhash ctx = ((ensure_block_hash ctx n).1, some e)))) := by
  obtain ⟨c, t, hcs⟩ := callStack_cons_of_stack_cons ctx n rest hstack
  have hc : ctx.call = c := call_of_cons ctx c t hcs
  have hnum : speekI ctx.call.stack 0 = n := by rw [hstack]; rfl
  have hrange : ∀ upper : Nat,
      ((if upper < 257 then 0 else upper - 256) ≤ n ∧ n < upper)
        ↔ (upper - 256 ≤ n ∧ n < upper) := by
    intro upper
    split <;> omega
  refine ⟨?_, ?_, ?_⟩
  · intro hov
    rw [opBlockhash]
    simp only [hnum]
    rw [if_pos hov]
  · intro hlt hout
    rw [opBlockhash]
    simp only [hnum]
    rw [if_neg (by omega)]
    rw [if_neg (by rw [hrange]; exact hout)]
    constructor
    · rfl
    · rw [Context.modifyStack, updCall_call _ ctx c t hcs]
      rw [hc] at hstack
      simp [hstack, supdTop]
  · intro hlt hlo hhi
    have hin : (if ctx.blockNumber < 257 then 0 else ctx.blockNumber - 256) ≤ n
        ∧ n < ctx.blockNumber := by
      rw [hrange]
      exact ⟨hlo, hhi⟩
    refine ⟨?_, ?_, ?_⟩
    · intro h hcache
      rw [opBlockhash]
      simp only [hnum]
      rw [if_neg (by omega), if_pos hin]
      simp only [ensure_block_hash, hcache]
    · intro cl h hcache hcl horacle
      rw [opBlockhash]
      simp only [hnum]
      rw [if_neg (by omega), if_pos hin]
      simp only [ensure_block_hash, hcache, get_online_block_hash, hcl, horacle]
      refine ⟨by trivial, ?_, by trivial⟩
      rw [Context.modifyStack, updCall_call _ _ c t (by exact hcs)]
      rw [hc] at hstack
      simp [hstack, supdTop]
    · intro e herr
      rw [opBlockhash]
      simp only [hnum]
      rw [if_neg (by omega), if_pos hin]
      rcases hbh : ensure_block_hash ctx n with ⟨ctx1, r⟩
      rw [hbh] at herr
      cases r with
      | error e1 =>
        simp at herr
        subst herr
        rfl
      | ok h => simp at herr

/-- C6 amended witness: block number 1000, argument 999 hits the cache. -/
theorem opBlockhash_cases_witness :
    opBlockhash (sampleCtx [999])
      = (Context.modifyStack (supdTop (fun _ => 0x1234 % W256)) (sampleCtx [999]), none) :=
  (((opBlockhash_cases (sampleCtx [999]) 999 [] rfl).2.2 (by decide) (by decide)
      (by decide)).1) 0x1234 rfl

/-- C2: within one `Run` invocation, the PreRun phase always executes, but
its error is ignored on the very first iteration — the instruction still
executes (the step proceeds to `stepTail`, which starts with the exec) —
while on every other iteration (`isFirst = false`, as every recursive
continuation sets it) it aborts the step and is returned; PostRun errors
abort on every iteration, the first included. -/
theorem run_first_step_pre_error {σ : Type} (fuel : Nat) (steps : Int) (ctx : Context σ)
    (line : Line) (op : Operation σ)
    (hsteps : steps ≠ 0) (hdone : ctx.isDone = false)
    (hline : ctx.lineAt = .ok line)
    (hop : @lookupOp σ line.op.opCode = some op) :
    (∀ e, (preRunAll ctx.hooks ctx.call line).2 = some e →
        runLoop (fuel + 1) false steps ctx
          = some ({ ctx with hooks := (preRunAll ctx.hooks ctx.call line).1 }, some e))
    ∧ runLoop (fuel + 1) true steps ctx
        = stepTail line.op.opCode op line ctx.call ctx.callStack.length
            (fun c => runLoop fuel false (steps - 1) c)
            { ctx with hooks := (preRunAll ctx.hooks ctx.call line).1 }
    ∧ ((preRunAll ctx.hooks ctx.call line).2 = none → ∀ b,
        runLoop (fuel + 1) b steps ctx
          = stepTail line.op.opCode op line ctx.call ctx.callStack.length
              (fun c => runLoop fuel false (steps - 1) c)
              { ctx with hooks := (preRunAll ctx.hooks ctx.call line).1 })
    ∧ (∀ ctx2 hooks2 e,
        op.exec { ctx with hooks := (preRunAll ctx.hooks ctx.call line).1 } = (ctx2, none) →
        postRunAll (stepPc line.op.opCode ctx.callStack.length ctx2).hooks
            (capturedFrame ctx.call ctx.callStack.length
              (stepPc line.op.opCode ctx.callStack.length ctx2)) line
          = (hooks2, some e) →
        runLoop (fuel + 1) true steps ctx
          = some ({ stepPc line.op.opCode ctx.callStack.length ctx2 with hooks := hooks2 },
              some e)) := by
  have hbody : ∀ b : Bool,
      runLoop (fuel + 1) b steps ctx
        = (if (preRunAll ctx.hooks ctx.call line).2.isSome ∧ b = false then
            some ({ ctx with hooks := (preRunAll ctx.hooks ctx.call line).1 },
              (preRunAll ctx.hooks ctx.call line).2)
          else
            stepTail line.op.opCode op line ctx.call ctx.callStack.length
              (fun c => runLoop fuel false (steps - 1) c)
              { ctx with hooks := (preRunAll ctx.hooks ctx.call line).1 }) := by
    intro b
    rw [runLoop]
    rw [if_neg (by simp [hsteps, hdone])]
    rw [hline]
    simp only [hop]
  refine ⟨?_, ?_, ?_, ?_⟩
  · intro e he
    rw [hbody false]
    rw [if_pos (by simp [he])]
    rw [he]
  · rw [hbody true]
    rw [if_neg (by simp)]
  · intro hnone b
    rw [hbody b]
    rw [if_neg (by simp [hnone])]
  · intro ctx2 hooks2 e hexec hpost
    rw [hbody true]
    rw [if_neg (by simp)]
    rw [stepTail, hexec]
    simp only [hpost]

/-- C2 witness: a breakpoint hook's PreRun error aborts a non-first
iteration immediately. -/
theorem run_first_step_pre_error_witness :
    runLoop 1 false (-1) (sampleCtxH [] [bpSampleHook])
      = some ({ sampleCtxH [] [bpSampleHook] with
            hooks := (preRunAll (sampleCtxH [] [bpSampleHook]).hooks
                        (sampleCtxH [] [bpSampleHook]).call sampleLine).1 },
          some .breakpoint) :=
  (run_first_step_pre_error 0 (-1) (sampleCtxH [] [bpSampleHook]) sampleLine
      ⟨⟨0x5b, 0, 0, 0⟩, execFor 0x5b⟩ (by decide) rfl rfl rfl).1 .breakpoint rfl

/-- Replacing the top in place preserves the stack depth. -/
theorem supdTop_length (f : Nat → Nat) (s : List Nat) :
    (supdTop f s).length = s.length := by
  cases s <;> rfl

/-- Pop-and-accumulate consumes one slot. -/
theorem binPeek_length (f : Nat → Nat → Nat) (s : List Nat) (h : 2 ≤ s.length) :
    (binPeek f s).length + 1 = s.length := by
  cases s with
  | nil => simp at h
  | cons a s1 =>
    cases s1 with
    | nil => simp at h
    | cons b t => rfl

/-- Two pops and an accumulate consume two slots. -/
theorem ternPeek_length (f : Nat → Nat → Nat → Nat) (s : List Nat) (h : 3 ≤ s.length) :
    (ternPeek f s).length + 2 = s.length := by
  cases s with
  | nil => simp at h
  | cons a s1 =>
    cases s1 with
    | nil => simp at h
    | cons b s2 =>
      cases s2 with
      | nil => simp at h
      | cons cc t => rfl

/-- A pop consumes one slot. -/
theorem spop_snd_length (s : List Nat) (h : 1 ≤ s.length) :
    (spop s).2.length + 1 = s.length := by
  cases s with
  | nil => simp at h
  | cons a t => rfl

/-- Dup pushes one slot. -/
theorem sdup_length (n : Nat) (s : List Nat) : (sdup n s).length = s.length + 1 := rfl

/-- Swap preserves the depth. -/
theorem sswapIdx_length (i : Nat) (s : List Nat) : (sswapIdx i s).length = s.length := by
  simp [sswapIdx]

/-- StackDeltaOK introduction: the exec kept the call stack depth. -/
theorem sdOK_same {σ : Type} (e : ExecF σ) (ctx : Context σ) (d : Int)
    (hlen : (e ctx).1.callStack.length = ctx.callStack.length)
    (hst : ((e ctx).1.call.stack.length : Int) = (ctx.call.stack.length : Int) + d) :
    StackDeltaOK e ctx d := by
  unfold StackDeltaOK
  refine ⟨fun _ => hst, fun h => ?_, fun h => ?_, Or.inl hlen⟩
  · exfalso; omega
  · exfalso; omega

/-- StackDeltaOK introduction: the exec pushed a frame. -/
theorem sdOK_push {σ : Type} (e : ExecF σ) (ctx : Context σ) (d : Int)
    (hlen : (e ctx).1.callStack.length = ctx.callStack.length + 1)
    (hst : (((e ctx).1.callStack.getD 1 defCall).stack.length : Int)
        = (ctx.call.stack.length : Int) + d)
    (htop : (e ctx).1.call.stack.length = 0) :
    StackDeltaOK e ctx d := by
  unfold StackDeltaOK
  refine ⟨fun h => ?_, fun _ => ⟨hst, htop⟩, fun h => ?_, Or.inr (Or.inl hlen)⟩
  · exfalso; omega
  · exfalso; omega

/-- StackDeltaOK introduction: the exec popped a frame. -/
theorem sdOK_pop {σ : Type} (e : ExecF σ) (ctx : Context σ) (d : Int)
    (hlen : (e ctx).1.callStack.length + 1 = ctx.callStack.length)
    (hst : (e ctx).1.call.stack.length = (ctx.callStack.getD 1 defCall).stack.length + 1) :
    StackDeltaOK e ctx d := by
  unfold StackDeltaOK
  refine ⟨fun h => ?_, fun h => ?_, fun _ => hst, Or.inr (Or.inr hlen)⟩
  · exfalso; omega
  · exfalso; omega

/-- StackDeltaOK for any exec whose state part is `modifyStack f` of a
context with the same call stack. -/
theorem sdOK_modify {σ : Type} (e : ExecF σ) (ctx ctx1 : Context σ) (f : List Nat → List Nat)
    (d : Int) (hne : ctx.callStack ≠ [])
    (hcs1 : ctx1.callStack = ctx.callStack)
    (hexec : (e ctx).1 = Context.modifyStack f ctx1)
    (hf : ((f ctx.call.stack).length : Int) = (ctx.call.stack.length : Int) + d) :
    StackDeltaOK e ctx d := by
  obtain ⟨c, t, hcs⟩ : ∃ c t, ctx.callStack = c :: t := by
    cases h : ctx.callStack with
    | nil => exact absurd h hne
    | cons c t => exact ⟨c, t, rfl⟩
  have hc := call_of_cons ctx c t hcs
  have hcs1' : ctx1.callStack = c :: t := hcs1.trans hcs
  apply sdOK_same
  · rw [hexec, Context.modifyStack, updCall_callStack _ ctx1 c t hcs1', hcs]
    rfl
  · rw [hexec, Context.modifyStack, updCall_call _ ctx1 c t hcs1', hc]
    rw [hc] at hf
    exact hf

/-- StackDeltaOK via explicit result call stack and stack value. -/
theorem sdOK_stackVal {σ : Type} (e : ExecF σ) (ctx : Context σ) (d : Int) (s1 : List Nat)
    (hlen : (e ctx).1.callStack.length = ctx.callStack.length)
    (hsv : (e ctx).1.call.stack = s1)
    (hf : (s1.length : Int) = (ctx.call.stack.length : Int) + d) :
    StackDeltaOK e ctx d := by
  apply sdOK_same _ _ _ hlen
  rw [hsv]
  exact hf

/-- `ensure_contract_at` only touches the contracts map. -/
theorem ensure_contract_at_frames {σ : Type} (ctx : Context σ) (addr : Nat) :
    (ensure_contract_at ctx addr).1.callStack = ctx.callStack
    ∧ (ensure_contract_at ctx addr).1.call = ctx.call := by
  unfold ensure_contract_at
  cases alistGet ctx.contracts addr <;> simp [Context.call]

/-- `ensure_code` never touches the call stack. -/
theorem ensure_code_frames {σ : Type} (ctx : Context σ) (addr : Nat) :
    (ensure_code ctx addr).1.callStack = ctx.callStack
    ∧ (ensure_code ctx addr).1.call = ctx.call := by
  unfold ensure_code
  rcases hca : ensure_contract_at ctx addr with ⟨ctx1, contract⟩
  have h1 : ctx1.callStack = ctx.callStack := by
    have := (ensure_contract_at_frames ctx addr).1
    rw [hca] at this
    exact this
  have h2 : ctx1.call = ctx.call := by
    rw [Context.call, Context.call, h1]
  simp only []
  split
  · exact ⟨h1, h2⟩
  · split
    · exact ⟨h1, h2⟩
    · split
      · exact ⟨h1, h2⟩
      · exact ⟨h1, h2⟩

/-- `ensure_storage` never touches the call stack. -/
theorem ensure_storage_frames {σ : Type} (ctx : Context σ) (addr slot : Nat) :
    (ensure_storage ctx addr slot).1.callStack = ctx.callStack
    ∧ (ensure_storage ctx addr slot).1.call = ctx.call := by
  unfold ensure_storage
  rcases hca : ensure_contract_at ctx addr with ⟨ctx1, contract⟩
  have h1 : ctx1.callStack = ctx.callStack := by
    have := (ensure_contract_at_frames ctx addr).1
    rw [hca] at this
    exact this
  have h2 : ctx1.call = ctx.call := by
    rw [Context.call, Context.call, h1]
  simp only []
  split
  · exact ⟨h1, h2⟩
  · split
    · exact ⟨h1, h2⟩
    · exact ⟨h1, h2⟩

/-- `ensure_balance` never touches the call stack. -/
theorem ensure_balance_frames {σ : Type} (ctx : Context σ) (addr : Nat) :
    (ensure_balance ctx addr).1.callStack = ctx.callStack
    ∧ (ensure_balance ctx addr).1.call = ctx.call := by
  unfold ensure_balance
  rcases hca : ensure_contract_at ctx addr with ⟨ctx1, contract⟩
  have h1 : ctx1.callStack = ctx.callStack := by
    have := (ensure_contract_at_frames ctx addr).1
    rw [hca] at this
    exact this
  have h2 : ctx1.call = ctx.call := by
    rw [Context.call, Context.call, h1]
  simp only []
  split
  · exact ⟨h1, h2⟩
  · split
    · exact ⟨h1, h2⟩
    · exact ⟨h1, h2⟩

/-- `ensure_block_hash` never touches the call stack. -/
theorem ensure_block_hash_frames {σ : Type} (ctx : Context σ) (n : Nat) :
    (ensure_block_hash ctx n).1.callStack = ctx.callStack
    ∧ (ensure_block_hash ctx n).1.call = ctx.call := by
  unfold ensure_block_hash
  split
  · simp [Context.call]
  · split
    · simp [Context.call]
    · simp [Context.call]

/-- Stack shape from arity 2. -/
theorem exists_cons2 (s : List Nat) (h : 2 ≤ s.length) : ∃ a b t, s = a :: b :: t := by
  cases s with
  | nil => simp at h
  | cons a s1 =>
    cases s1 with
    | nil => simp at h
    | cons b t => exact ⟨a, b, t, rfl⟩

/-- Stack shape from arity 3. -/
theorem exists_cons3 (s : List Nat) (h : 3 ≤ s.length) : ∃ a b cc t, s = a :: b :: cc :: t := by
  cases s with
  | nil => simp at h
  | cons a s1 =>
    obtain ⟨b, cc, t, rfl⟩ := exists_cons2 s1 (by simp at h; omega)
    exact ⟨a, b, cc, t, rfl⟩

/-- Stack shape from arity 4. -/
theorem exists_cons4 (s : List Nat) (h : 4 ≤ s.length) :
    ∃ a b cc dd t, s = a :: b :: cc :: dd :: t := by
  cases s with
  | nil => simp at h
  | cons a s1 =>
    obtain ⟨b, cc, dd, t, rfl⟩ := exists_cons3 s1 (by simp at h; omega)
    exact ⟨a, b, cc, dd, t, rfl⟩

/-- Stack shape from arity 6. -/
theorem exists_cons6 (s : List Nat) (h : 6 ≤ s.length) :
    ∃ a b cc dd ee ff t, s = a :: b :: cc :: dd :: ee :: ff :: t := by
  cases s with
  | nil => simp at h
  | cons a s1 =>
    cases s1 with
    | nil => simp at h
    | cons b s2 =>
      obtain ⟨cc, dd, ee, ff, t, rfl⟩ := exists_cons4 s2 (by simp at h; omega)
      exact ⟨a, b, cc, dd, ee, ff, t, rfl⟩

/-- Stack shape from arity 7. -/
theorem exists_cons7 (s : List Nat) (h : 7 ≤ s.length) :
    ∃ a b cc dd ee ff gg t, s = a :: b :: cc :: dd :: ee :: ff :: gg :: t := by
  cases s with
  | nil => simp at h
  | cons a s1 =>
    obtain ⟨b, cc, dd, ee, ff, gg, t, rfl⟩ := exists_cons6 s1 (by simp at h; omega)
    exact ⟨a, b, cc, dd, ee, ff, gg, t, rfl⟩

/-- Call stack of `setStack`. -/
theorem setStack_callStack {σ : Type} (ctx : Context σ) (c : Call) (t : List Call)
    (s2 : List Nat) (hcs : ctx.callStack = c :: t) :
    (Context.setStack s2 ctx).callStack = { c with stack := s2 } :: t := by
  rw [Context.setStack, Context.modifyStack, updCall_callStack _ ctx c t hcs]

/-- Call stack of `modifyStack`. -/
theorem modifyStack_callStack {σ : Type} (ctx : Context σ) (c : Call) (t : List Call)
    (f : List Nat → List Nat) (hcs : ctx.callStack = c :: t) :
    (Context.modifyStack f ctx).callStack = { c with stack := f c.stack } :: t := by
  rw [Context.modifyStack, updCall_callStack _ ctx c t hcs]

/-- Call stack of `modifyMem`. -/
theorem modifyMem_callStack {σ : Type} (ctx : Context σ) (c : Call) (t : List Call)
    (g : List Nat → List Nat) (hcs : ctx.callStack = c :: t) :
    (Context.modifyMem g ctx).callStack = { c with memory := g c.memory } :: t := by
  rw [Context.modifyMem, updCall_callStack _ ctx c t hcs]

/-- Call stack of `setPc`. -/
theorem setPc_callStack {σ : Type} (ctx : Context σ) (c : Call) (t : List Call)
    (p : Nat) (hcs : ctx.callStack = c :: t) :
    (Context.setPc p ctx).callStack = { c with pc := p } :: t := by
  rw [Context.setPc, updCall_callStack _ ctx c t hcs]

/-- StackDeltaOK for an exec whose state is memory-write over a replaced
stack: the top frame survives with stack `s2`. -/
theorem sdOK_memWrite {σ : Type} (e : ExecF σ) (ctx : Context σ) (d : Int)
    (s2 : List Nat) (g : List Nat → List Nat) (c : Call) (t : List Call)
    (hcs : ctx.callStack = c :: t)
    (hexec : (e ctx).1 = Context.modifyMem g (Context.setStack s2 ctx))
    (hf : (s2.length : Int) = (ctx.call.stack.length : Int) + d) :
    StackDeltaOK e ctx d := by
  apply sdOK_stackVal _ _ _ s2
  · rw [hexec, modifyMem_callStack _ _ _ _ (setStack_callStack ctx c t s2 hcs), hcs]
    simp
  · rw [hexec, Context.modifyMem,
      updCall_call _ _ _ _ (setStack_callStack ctx c t s2 hcs)]
  · exact hf

/-- StackDeltaOK for an exec whose state replaces the top of the stack of a
context with an unchanged call stack (delta 0). -/
theorem sdOK_replaceTop {σ : Type} (e : ExecF σ) (ctx ctx1 : Context σ) (g : Nat → Nat)
    (hne : ctx.callStack ≠ []) (hcs1 : ctx1.callStack = ctx.callStack)
    (hexec : (e ctx).1 = Context.modifyStack (supdTop g) ctx1) :
    StackDeltaOK e ctx 0 := by
  apply sdOK_modify e ctx ctx1 _ 0 hne hcs1 hexec
  rw [supdTop_length]
  omega

/-- StackDeltaOK for an exec pushing one value on an unchanged call stack. -/
theorem sdOK_pushTop {σ : Type} (e : ExecF σ) (ctx ctx1 : Context σ) (v : Nat)
    (hne : ctx.callStack ≠ []) (hcs1 : ctx1.callStack = ctx.callStack)
    (hexec : (e ctx).1 = Context.modifyStack (fun s => v :: s) ctx1) :
    StackDeltaOK e ctx 1 := by
  apply sdOK_modify e ctx ctx1 _ 1 hne hcs1 hexec
  simp

/-- MSTORE pops two operands. -/
theorem sdOK_opMstore {σ : Type} (ctx : Context σ) (hne : ctx.callStack ≠ [])
    (hv : 2 ≤ ctx.call.stack.length) : StackDeltaOK (opMstore) ctx (-2) := by
  obtain ⟨a, b, r, hstack⟩ := exists_cons2 ctx.call.stack hv
  obtain ⟨c, t, hcs⟩ : ∃ c t, ctx.callStack = c :: t := by
    cases h : ctx.callStack with
    | nil => exact absurd h hne
    | cons c t => exact ⟨c, t, rfl⟩
  apply sdOK_memWrite _ _ _ r (fun m => memSet32 m (a % U64) b) c t hcs
  · simp [opMstore, hstack, spop]
  · rw [hstack]
    simp
    omega

/-- MSTORE8 pops two operands. -/
theorem sdOK_opMstore8 {σ : Type} (ctx : Context σ) (hne : ctx.callStack ≠ [])
    (hv : 2 ≤ ctx.call.stack.length) : StackDeltaOK (opMstore8) ctx (-2) := by
  obtain ⟨a, b, r, hstack⟩ := exists_cons2 ctx.call.stack hv
  obtain ⟨c, t, hcs⟩ : ∃ c t, ctx.callStack = c :: t := by
    cases h : ctx.callStack with
    | nil => exact absurd h hne
    | cons c t => exact ⟨c, t, rfl⟩
  apply sdOK_memWrite _ _ _ r (fun m => memSet m (a % U64) 1 [b % U64 % 256]) c t hcs
  · simp [opMstore8, hstack, spop]
  · rw [hstack]
    simp
    omega

/-- CALLDATACOPY pops three operands. -/
theorem sdOK_opCallDataCopy {σ : Type} (ctx : Context σ) (hne : ctx.callStack ≠ [])
    (hv : 3 ≤ ctx.call.stack.length) : StackDeltaOK (opCallDataCopy) ctx (-3) := by
  obtain ⟨a, b, cc, r, hstack⟩ := exists_cons3 ctx.call.stack hv
  obtain ⟨c, t, hcs⟩ : ∃ c t, ctx.callStack = c :: t := by
    cases h : ctx.callStack with
    | nil => exact absurd h hne
    | cons c t => exact ⟨c, t, rfl⟩
  apply sdOK_memWrite _ _ _ r
    (fun m => memSet m (a % U64) (cc % U64)
      (getData ctx.call.msgData (if b < U64 then b else U64 - 1) (cc % U64))) c t hcs
  · simp [opCallDataCopy, hstack, spop]
  · rw [hstack]
    simp
    omega

/-- SHA3 pops one operand and replaces the next in place. -/
theorem sdOK_opSha3 {σ : Type} (ctx : Context σ) (hne : ctx.callStack ≠ [])
    (hv : 2 ≤ ctx.call.stack.length) : StackDeltaOK (opSha3) ctx (-1) := by
  obtain ⟨a, b, r, hstack⟩ := exists_cons2 ctx.call.stack hv
  apply sdOK_modify _ ctx ctx _ (-1) hne rfl
  · show (opSha3 ctx).1 = _
    simp only [opSha3, hstack, spop]
    rfl
  · rw [hstack]
    simp [supdTop, speekI]

/-- Memory-write over an intermediate context whose call stack is the
replaced-stack frame. -/
theorem sdOK_memWriteOn {σ : Type} (e : ExecF σ) (ctx : Context σ) (d : Int)
    (s2 : List Nat) (g : List Nat → List Nat) (ctxm : Context σ) (c : Call) (t : List Call)
    (hcs : ctx.callStack = c :: t)
    (hcsm : ctxm.callStack = { c with stack := s2 } :: t)
    (hexec : (e ctx).1 = Context.modifyMem g ctxm)
    (hf : (s2.length : Int) = (ctx.call.stack.length : Int) + d) :
    StackDeltaOK e ctx d := by
  apply sdOK_stackVal _ _ _ s2
  · rw [hexec, modifyMem_callStack _ _ _ _ hcsm, hcs]
    simp
  · rw [hexec, Context.modifyMem, updCall_call _ _ _ _ hcsm]
  · exact hf

/-- EXTCODESIZE replaces the top in place on success. -/
theorem sdOK_opExtCodeSize {σ : Type} (ctx : Context σ) (hne : ctx.callStack ≠ [])
    (hok : (opExtCodeSize ctx).2 = none) : StackDeltaOK opExtCodeSize ctx 0 := by
  rcases hec : ensure_code ctx (bytes20 (speekI ctx.call.stack 0)) with ⟨ctx1, r⟩
  have hcs1 : ctx1.callStack = ctx.callStack := by
    have h := (ensure_code_frames ctx (bytes20 (speekI ctx.call.stack 0))).1
    rw [hec] at h
    exact h
  cases r with
  | error e => simp [opExtCodeSize, hec] at hok
  | ok code =>
    apply sdOK_replaceTop _ ctx ctx1 (fun _ => code.length) hne hcs1
    simp only [opExtCodeSize, hec]

/-- EXTCODEHASH replaces the top in place on success. -/
theorem sdOK_opExtCodeHash {σ : Type} (ctx : Context σ) (hne : ctx.callStack ≠ [])
    (hok : (opExtCodeHash ctx).2 = none) : StackDeltaOK opExtCodeHash ctx 0 := by
  rcases hec : ensure_code ctx (bytes20 (speekI ctx.call.stack 0)) with ⟨ctx1, r⟩
  have hcs1 : ctx1.callStack = ctx.callStack := by
    have h := (ensure_code_frames ctx (bytes20 (speekI ctx.call.stack 0))).1
    rw [hec] at h
    exact h
  cases r with
  | error e => simp [opExtCodeHash, hec] at hok
  | ok code =>
    apply sdOK_replaceTop _ ctx ctx1 (fun _ => ctx.keccak code % W256) hne hcs1
    simp only [opExtCodeHash, hec]

/-- SLOAD replaces the top in place on success. -/
theorem sdOK_opSload {σ : Type} (ctx : Context σ) (hne : ctx.callStack ≠ [])
    (hok : (opSload ctx).2 = none) : StackDeltaOK opSload ctx 0 := by
  rcases hes : ensure_storage ctx ctx.call.this (speekI ctx.call.stack 0) with ⟨ctx1, r⟩
  have hcs1 : ctx1.callStack = ctx.callStack := by
    have h := (ensure_storage_frames ctx ctx.call.this (speekI ctx.call.stack 0)).1
    rw [hes] at h
    exact h
  cases r with
  | error e => simp [opSload, hes] at hok
  | ok v =>
    apply sdOK_replaceTop _ ctx ctx1 (fun _ => v % W256) hne hcs1
    simp only [opSload, hes]

/-- BLOCKHASH replaces the top in place on success. -/
theorem sdOK_opBlockhash {σ : Type} (ctx : Context σ) (hne : ctx.callStack ≠ [])
    (hok : (opBlockhash ctx).2 = none) : StackDeltaOK opBlockhash ctx 0 := by
  by_cases hov : U64 ≤ speekI ctx.call.stack 0
  · simp [opBlockhash, hov] at hok
  · by_cases hin : (if ctx.blockNumber < 257 then 0 else ctx.blockNumber - 256)
        ≤ speekI ctx.call.stack 0 ∧ speekI ctx.call.stack 0 < ctx.blockNumber
    · rcases hbh : ensure_block_hash ctx (speekI ctx.call.stack 0) with ⟨ctx1, r⟩
      have hcs1 : ctx1.callStack = ctx.callStack := by
        have h := (ensure_block_hash_frames ctx (speekI ctx.call.stack 0)).1
        rw [hbh] at h
        exact h
      cases r with
      | error e => simp [opBlockhash, hov, hin, hbh] at hok
      | ok h =>
        apply sdOK_replaceTop _ ctx ctx1 (fun _ => h % W256) hne hcs1
        simp only [opBlockhash, hbh]
        rw [if_neg hov, if_pos hin]
    · apply sdOK_replaceTop _ ctx ctx (fun _ => 0) hne rfl
      simp only [opBlockhash]
      rw [if_neg hov, if_neg hin]

/-- CODESIZE pushes one value on success. -/
theorem sdOK_opCodeSize {σ : Type} (ctx : Context σ) (hne : ctx.callStack ≠ [])
    (hok : (opCodeSize ctx).2 = none) : StackDeltaOK opCodeSize ctx 1 := by
  rcases hec : ensure_code ctx ctx.call.this with ⟨ctx1, r⟩
  have hcs1 : ctx1.callStack = ctx.callStack := by
    have h := (ensure_code_frames ctx ctx.call.this).1
    rw [hec] at h
    exact h
  cases r with
  | error e => simp [opCodeSize, hec] at hok
  | ok code =>
    apply sdOK_pushTop _ ctx ctx1 code.length hne hcs1
    simp only [opCodeSize, hec]

/-- SELFBALANCE pushes one value on success. -/
theorem sdOK_opSelfBalance {σ : Type} (ctx : Context σ) (hne : ctx.callStack ≠ [])
    (hok : (opSelfBalance ctx).2 = none) : StackDeltaOK opSelfBalance ctx 1 := by
  rcases heb : ensure_balance ctx ctx.call.this with ⟨ctx1, r⟩
  have hcs1 : ctx1.callStack = ctx.callStack := by
    have h := (ensure_balance_frames ctx ctx.call.this).1
    rw [heb] at h
    exact h
  cases r with
  | error e => simp [opSelfBalance, heb] at hok
  | ok bal =>
    apply sdOK_pushTop _ ctx ctx1 (ofInt bal) hne hcs1
    simp only [opSelfBalance, heb]

/-- CODECOPY pops three operands and writes memory. -/
theorem sdOK_opCodeCopy {σ : Type} (ctx : Context σ) (hne : ctx.callStack ≠ [])
    (hv : 3 ≤ ctx.call.stack.length) (hok : (opCodeCopy ctx).2 = none) :
    StackDeltaOK opCodeCopy ctx (-3) := by
  obtain ⟨a, b, cc, r, hstack⟩ := exists_cons3 ctx.call.stack hv
  obtain ⟨c, t, hcs⟩ : ∃ c t, ctx.callStack = c :: t := by
    cases h : ctx.callStack with
    | nil => exact absurd h hne
    | cons c t => exact ⟨c, t, rfl⟩
  rcases hec : ensure_code (Context.setStack r ctx) (Context.setStack r ctx).call.this
    with ⟨ctx2, res⟩
  have hcsm : ctx2.callStack = { c with stack := r } :: t := by
    have h := (ensure_code_frames (Context.setStack r ctx)
      (Context.setStack r ctx).call.this).1
    rw [hec] at h
    exact h.trans (setStack_callStack ctx c t r hcs)
  cases res with
  | error e => simp [opCodeCopy, hstack, spop, hec] at hok
  | ok code =>
    apply sdOK_memWriteOn _ ctx (-3) r _ ctx2 c t hcs hcsm
    · simp only [opCodeCopy, hstack, spop, hec]
      rfl
    · rw [hstack]
      simp
      omega

/-- EXTCODECOPY pops four operands and writes memory. -/
theorem sdOK_opExtCodeCopy {σ : Type} (ctx : Context σ) (hne : ctx.callStack ≠ [])
    (hv : 4 ≤ ctx.call.stack.length) (hok : (opExtCodeCopy ctx).2 = none) :
    StackDeltaOK opExtCodeCopy ctx (-4) := by
  obtain ⟨a, b, cc, dd, r, hstack⟩ := exists_cons4 ctx.call.stack hv
  obtain ⟨c, t, hcs⟩ : ∃ c t, ctx.callStack = c :: t := by
    cases h : ctx.callStack with
    | nil => exact absurd h hne
    | cons c t => exact ⟨c, t, rfl⟩
  rcases hec : ensure_code (Context.setStack r ctx) (bytes20 a) with ⟨ctx2, res⟩
  have hcsm : ctx2.callStack = { c with stack := r } :: t := by
    have h := (ensure_code_frames (Context.setStack r ctx) (bytes20 a)).1
    rw [hec] at h
    exact h.trans (setStack_callStack ctx c t r hcs)
  cases res with
  | error e => simp [opExtCodeCopy, hstack, spop, hec] at hok
  | ok code =>
    apply sdOK_memWriteOn _ ctx (-4) r _ ctx2 c t hcs hcsm
    · simp only [opExtCodeCopy, hstack, spop, hec]
      rfl
    · rw [hstack]
      simp
      omega

/-- RETURNDATACOPY pops three operands and writes memory on success. -/
theorem sdOK_opReturnDataCopy {σ : Type} (ctx : Context σ) (hne : ctx.callStack ≠ [])
    (hv : 3 ≤ ctx.call.stack.length) (hok : (opReturnDataCopy ctx).2 = none) :
    StackDeltaOK opReturnDataCopy ctx (-3) := by
  obtain ⟨a, b, cc, r, hstack⟩ := exists_cons3 ctx.call.stack hv
  obtain ⟨c, t, hcs⟩ : ∃ c t, ctx.callStack = c :: t := by
    cases h : ctx.callStack with
    | nil => exact absurd h hne
    | cons c t => exact ⟨c, t, rfl⟩
  by_cases h1 : U64 ≤ b
  · simp [opReturnDataCopy, hstack, spop, h1] at hok
  · by_cases h2 : U64 ≤ (b + cc) % W256
        ∨ (Context.setStack r ctx).call.innerReturnVal.length < (b + cc) % W256
    · exfalso
      rw [show (opReturnDataCopy ctx).2 = some Err.returnDataOutOfBounds from ?_] at hok
      · exact Option.noConfusion hok
      · simp only [opReturnDataCopy, hstack, spop]
        rw [if_neg h1, if_pos h2]
    · apply sdOK_memWriteOn _ ctx (-3) r _ (Context.setStack r ctx) c t hcs
        (setStack_callStack ctx c t r hcs)
      · simp only [opReturnDataCopy, hstack, spop]
        rw [if_neg h1, if_neg h2]
      · rw [hstack]
        simp
        omega

/-- JUMP pops one operand on success. -/
theorem sdOK_opJump {σ : Type} (ctx : Context σ) (hne : ctx.callStack ≠ [])
    (hv : 1 ≤ ctx.call.stack.length) (hok : (opJump ctx).2 = none) :
    StackDeltaOK opJump ctx (-1) := by
  rcases hs : ctx.call.stack with _ | ⟨a, r⟩
  · rw [hs] at hv
    simp at hv
  obtain ⟨c, t, hcs⟩ : ∃ c t, ctx.callStack = c :: t := by
    cases h : ctx.callStack with
    | nil => exact absurd h hne
    | cons c t => exact ⟨c, t, rfl⟩
  by_cases hj : (Context.setStack r ctx).codeBinary.length ≤ a % U64
  · simp [opJump, hs, spop, hj] at hok
  · have hexec : (opJump ctx).1 = Context.setPc (a % U64) (Context.setStack r ctx) := by
      simp only [opJump, hs, spop]
      rw [if_neg hj]
    apply sdOK_stackVal _ _ _ r
    · rw [hexec, setPc_callStack _ _ _ _ (setStack_callStack ctx c t r hcs), hcs]
      simp
    · rw [hexec, Context.setPc, updCall_call _ _ _ _ (setStack_callStack ctx c t r hcs)]
    · rw [hs]
      simp

/-- JUMPI pops two operands on success. -/
theorem sdOK_opJumpi {σ : Type} (ctx : Context σ) (hne : ctx.callStack ≠ [])
    (hv : 2 ≤ ctx.call.stack.length) (hok : (opJumpi ctx).2 = none) :
    StackDeltaOK opJumpi ctx (-2) := by
  obtain ⟨a, b, r, hs⟩ := exists_cons2 ctx.call.stack hv
  obtain ⟨c, t, hcs⟩ : ∃ c t, ctx.callStack = c :: t := by
    cases h : ctx.callStack with
    | nil => exact absurd h hne
    | cons c t => exact ⟨c, t, rfl⟩
  by_cases hb : b ≠ 0
  · by_cases hj : (Context.setStack r ctx).codeBinary.length ≤ a % U64
    · simp [opJumpi, hs, spop, hb, hj] at hok
    · have hexec : (opJumpi ctx).1 = Context.setPc (a % U64) (Context.setStack r ctx) := by
        simp only [opJumpi, hs, spop]
        rw [if_pos hb, if_neg hj]
      apply sdOK_stackVal _ _ _ r
      · rw [hexec, setPc_callStack _ _ _ _ (setStack_callStack ctx c t r hcs), hcs]
        simp
      · rw [hexec, Context.setPc, updCall_call _ _ _ _ (setStack_callStack ctx c t r hcs)]
      · rw [hs]
        simp
        omega
  · have hexec : (opJumpi ctx).1
        = Context.setPc ((Context.setStack r ctx).call.pc + 1) (Context.setStack r ctx) := by
      simp only [opJumpi, hs, spop]
      rw [if_neg hb]
    apply sdOK_stackVal _ _ _ r
    · rw [hexec, setPc_callStack _ _ _ _ (setStack_callStack ctx c t r hcs), hcs]
      simp
    · rw [hexec, Context.setPc, updCall_call _ _ _ _ (setStack_callStack ctx c t r hcs)]
    · rw [hs]
      simp
      omega

/-- PUSHn pushes one value on success. -/
theorem sdOK_makePush {σ : Type} (n : Nat) (ctx : Context σ) (hne : ctx.callStack ≠ [])
    (hok : (makePush n ctx).2 = none) : StackDeltaOK (makePush n) ctx 1 := by
  obtain ⟨c, t, hcs⟩ : ∃ c t, ctx.callStack = c :: t := by
    cases h : ctx.callStack with
    | nil => exact absurd h hne
    | cons c t => exact ⟨c, t, rfl⟩
  by_cases hlt : ctx.codeBinary.length < ctx.call.pc + 1 + n
  · simp [makePush, hlt] at hok
  · have hexec : (makePush n ctx).1
        = Context.setPc (ctx.call.pc + n)
            (Context.modifyStack
              (fun s => bytesToNat ((ctx.codeBinary.drop (ctx.call.pc + 1)).take n) :: s) ctx) := by
      simp only [makePush]
      rw [if_neg hlt]
    apply sdOK_stackVal _ _ _
      (bytesToNat ((ctx.codeBinary.drop (ctx.call.pc + 1)).take n) :: c.stack)
    · rw [hexec, setPc_callStack _ _ _ _ (modifyStack_callStack ctx c t _ hcs), hcs]
      simp
    · rw [hexec, Context.setPc, updCall_call _ _ _ _ (modifyStack_callStack ctx c t _ hcs)]
    · rw [call_of_cons ctx c t hcs]
      simp

/-- SSTORE pops two operands in both its branches. -/
theorem sdOK_opSstore {σ : Type} (ctx : Context σ) (hne : ctx.callStack ≠ [])
    (hv : 2 ≤ ctx.call.stack.length) : StackDeltaOK opSstore ctx (-2) := by
  obtain ⟨a, b, r, hs⟩ := exists_cons2 ctx.call.stack hv
  obtain ⟨c, t, hcs⟩ : ∃ c t, ctx.callStack = c :: t := by
    cases h : ctx.callStack with
    | nil => exact absurd h hne
    | cons c t => exact ⟨c, t, rfl⟩
  rcases hget : alistGet (Context.setStack r ctx).contracts (Context.setStack r ctx).call.this
    with _ | c0
  · have hexec : (opSstore ctx).1 = Context.setStack r ctx := by
      simp only [opSstore, hs, spop, hget]
    apply sdOK_stackVal _ _ _ r
    · rw [hexec, setStack_callStack ctx c t r hcs, hcs]
      simp
    · rw [hexec, Context.setStack, Context.modifyStack,
        updCall_call _ ctx c t hcs]
    · rw [hs]
      simp
      omega
  · have hexec : (opSstore ctx).1
        = { Context.setStack r ctx with
            contracts := alistPut (Context.setStack r ctx).contracts
              (Context.setStack r ctx).call.this
              { c0 with storage := alistPut c0.storage a b } } := by
      simp only [opSstore, hs, spop, hget]
    apply sdOK_stackVal _ _ _ r
    · rw [hexec]
      show (Context.setStack r ctx).callStack.length = ctx.callStack.length
      rw [setStack_callStack ctx c t r hcs, hcs]
      simp
    · rw [hexec]
      show (Context.setStack r ctx).call.stack = r
      rw [Context.setStack, Context.modifyStack, updCall_call _ ctx c t hcs]
    · rw [hs]
      simp
      omega

/-- Precompile branch of `do_opcall`: the frame count is kept and a success
flag lands on the caller stack. -/
theorem do_opcall_prec {σ : Type} (ctx1 : Context σ)
    (gas addr value io is ro rs : Nat) (c1 : Call) (t : List Call)
    (hcs1 : ctx1.callStack = c1 :: t)
    (hprec : 1 ≤ bytes20 addr ∧ bytes20 addr ≤ 9)
    (hok : (do_opcall ctx1 gas addr value io is ro rs).2 = none) :
    (do_opcall ctx1 gas addr value io is ro rs).1.callStack.length = ctx1.callStack.length
    ∧ (do_opcall ctx1 gas addr value io is ro rs).1.call.stack = 1 :: c1.stack := by
  rcases hrun : ctx1.precompileRun (bytes20 addr)
      (getPtr ctx1.call.memory (io % U64) (is % U64)) with _ | output
  · exfalso
    simp [do_opcall, hprec, hrun] at hok
  · have hexec : (do_opcall ctx1 gas addr value io is ro rs).1
        = Context.modifyStack (fun s => 1 :: s)
            (Context.modifyMem (fun m => memSet m (ro % U64) (rs % U64) output)
              (Context.updCall (fun c => { c with innerReturnVal := output }) ctx1)) := by
      simp only [do_opcall, hrun]
      rw [if_pos hprec]
    have hcs2 := updCall_callStack (fun c => { c with innerReturnVal := output }) ctx1 c1 t hcs1
    have hcs3 := modifyMem_callStack _ _ _
      (fun m => memSet m (ro % U64) (rs % U64) output) hcs2
    constructor
    · rw [hexec, modifyStack_callStack _ _ _ _ hcs3, hcs1]
      simp
    · rw [hexec, Context.modifyStack, updCall_call _ _ _ _ hcs3]

/-- Descending branch of `do_opcall`: a fresh empty frame is pushed and the
caller keeps its (already popped) stack. -/
theorem do_opcall_descend {σ : Type} (ctx1 : Context σ)
    (gas addr value io is ro rs : Nat) (c1 : Call) (t : List Call)
    (hcs1 : ctx1.callStack = c1 :: t)
    (hprec : ¬ (1 ≤ bytes20 addr ∧ bytes20 addr ≤ 9))
    (hok : (do_opcall ctx1 gas addr value io is ro rs).2 = none) :
    (do_opcall ctx1 gas addr value io is ro rs).1.callStack.length = ctx1.callStack.length + 1
    ∧ (do_opcall ctx1 gas addr value io is ro rs).1.callStack.getD 1 defCall = c1
    ∧ (do_opcall ctx1 gas addr value io is ro rs).1.call.stack = [] := by
  rcases hec : ensure_code ctx1 (bytes20 addr) with ⟨ctx2, res⟩
  cases res with
  | error e =>
    exfalso
    simp [do_opcall, hprec, hec] at hok
  | ok bin =>
    have hcs2 : ctx2.callStack = c1 :: t := by
      have h := (ensure_code_frames ctx1 (bytes20 addr)).1
      rw [hec] at h
      exact h.trans hcs1
    have hexec : (do_opcall ctx1 gas addr value io is ro rs).1
        = { ctx2 with callStack :=
            ({ msgData := getPtr ctx1.call.memory (io % U64) (is % U64),
               msgGas := ctx2.call.msgGas, msgSender := ctx2.call.this,
               msgValue := (value : Int), this := bytes20 addr, codePtr := none,
               memory := [], stack := [], pc := 0,
               outerReturnOffset := ro % U64, outerReturnSize := rs % U64,
               innerReturnVal := [] } : Call) :: ctx2.callStack } := by
      simp only [do_opcall, hec]
      rw [if_neg hprec]
    refine ⟨?_, ?_, ?_⟩
    · rw [hexec]
      show (_ :: ctx2.callStack).length = ctx1.callStack.length + 1
      rw [hcs2, hcs1]
      simp
    · rw [hexec]
      show (_ :: ctx2.callStack).getD 1 defCall = c1
      rw [hcs2]
      rfl
    · rw [hexec]
      show (Context.call _).stack = []
      rw [Context.call]
      rfl

/-- CALL: delta -6 for a bare transfer or a precompile target, -7 for a real
descent, exactly as `amendedDelta` records. -/
theorem sdOK_opCall {σ : Type} (ctx : Context σ) (m : OpMeta) (hne : ctx.callStack ≠ [])
    (hv : 7 ≤ ctx.call.stack.length) (hok : (opCall ctx).2 = none) :
    StackDeltaOK opCall ctx (amendedDelta 0xf1 m ctx) := by
  obtain ⟨g0, a1, v2, io3, is4, ro5, rs6, r, hs⟩ := exists_cons7 ctx.call.stack hv
  obtain ⟨c, t, hcs⟩ : ∃ c t, ctx.callStack = c :: t := by
    cases h : ctx.callStack with
    | nil => exact absurd h hne
    | cons c t => exact ⟨c, t, rfl⟩
  have hd4 : speekI ctx.call.stack 4 = is4 := by rw [hs]; rfl
  have hd1 : speekI ctx.call.stack 1 = a1 := by rw [hs]; rfl
  have hcs1 : (Context.setStack r ctx).callStack = { c with stack := r } :: t :=
    setStack_callStack ctx c t r hcs
  by_cases his : is4 = 0
  · have hdelta : amendedDelta 0xf1 m ctx = -6 := by
      simp [amendedDelta, hd4, his]
    rw [hdelta]
    have hexec : (opCall ctx).1
        = Context.modifyStack (fun s => 1 :: s) (Context.setStack r ctx) := by
      simp only [opCall, hs, spop]
      rw [if_pos his]
    apply sdOK_stackVal _ _ _ (1 :: r)
    · rw [hexec, modifyStack_callStack _ _ _ _ hcs1, hcs]
      simp
    · rw [hexec, Context.modifyStack, updCall_call _ _ _ _ hcs1]
    · rw [hs]
      simp
      omega
  · have heq : opCall ctx = do_opcall (Context.setStack r ctx) g0 a1 v2 io3 is4 ro5 rs6 := by
      simp only [opCall, hs, spop]
      rw [if_neg his]
    rw [heq] at hok
    by_cases hprec : 1 ≤ bytes20 a1 ∧ bytes20 a1 ≤ 9
    · have hdelta : amendedDelta 0xf1 m ctx = -6 := by
        simp [amendedDelta, hd4, hd1, his, hprec]
      rw [hdelta]
      obtain ⟨hl, hst⟩ := do_opcall_prec (Context.setStack r ctx) g0 a1 v2 io3 is4 ro5 rs6
        { c with stack := r } t hcs1 hprec hok
      apply sdOK_stackVal _ _ _ (1 :: r)
      · rw [heq, hl, hcs1, hcs]
        simp
      · rw [heq, hst]
      · rw [hs]
        simp
        omega
    · have hdelta : amendedDelta 0xf1 m ctx = -7 := by
        simp [amendedDelta, hd4, hd1, his, hprec]
      rw [hdelta]
      obtain ⟨hl, hg, htop⟩ := do_opcall_descend (Context.setStack r ctx) g0 a1 v2 io3 is4 ro5 rs6
        { c with stack := r } t hcs1 hprec hok
      apply sdOK_push
      · rw [heq, hl, hcs1, hcs]
        simp
      · rw [heq, hg, hs]
        simp
        omega
      · rw [heq, htop]
        rfl

/-- STATICCALL: delta -5 for a precompile target, -6 for a real descent. -/
theorem sdOK_opStaticCall {σ : Type} (ctx : Context σ) (m : OpMeta) (hne : ctx.callStack ≠ [])
    (hv : 6 ≤ ctx.call.stack.length) (hok : (opStaticCall ctx).2 = none) :
    StackDeltaOK opStaticCall ctx (amendedDelta 0xfa m ctx) := by
  obtain ⟨g0, a1, io2, is3, ro4, rs5, r, hs⟩ := exists_cons6 ctx.call.stack hv
  obtain ⟨c, t, hcs⟩ : ∃ c t, ctx.callStack = c :: t := by
    cases h : ctx.callStack with
    | nil => exact absurd h hne
    | cons c t => exact ⟨c, t, rfl⟩
  have hd1 : speekI ctx.call.stack 1 = a1 := by rw [hs]; rfl
  have hcs1 : (Context.setStack r ctx).callStack = { c with stack := r } :: t :=
    setStack_callStack ctx c t r hcs
  have heq : opStaticCall ctx = do_opcall (Context.setStack r ctx) g0 a1 0 io2 is3 ro4 rs5 := by
    simp only [opStaticCall, hs, spop]
  rw [heq] at hok
  by_cases hprec : 1 ≤ bytes20 a1 ∧ bytes20 a1 ≤ 9
  · have hdelta : amendedDelta 0xfa m ctx = -5 := by
      simp [amendedDelta, hd1, hprec]
    rw [hdelta]
    obtain ⟨hl, hst⟩ := do_opcall_prec (Context.setStack r ctx) g0 a1 0 io2 is3 ro4 rs5
      { c with stack := r } t hcs1 hprec hok
    apply sdOK_stackVal _ _ _ (1 :: r)
    · rw [heq, hl, hcs1, hcs]
      simp
    · rw [heq, hst]
    · rw [hs]
      simp
      omega
  · have hdelta : amendedDelta 0xfa m ctx = -6 := by
      simp [amendedDelta, hd1, hprec]
    rw [hdelta]
    obtain ⟨hl, hg, htop⟩ := do_opcall_descend (Context.setStack r ctx) g0 a1 0 io2 is3 ro4 rs5
      { c with stack := r } t hcs1 hprec hok
    apply sdOK_push
    · rw [heq, hl, hcs1, hcs]
      simp
    · rw [heq, hg, hs]
      simp
      omega
    · rw [heq, htop]
      rfl

/-- DELEGATECALL always descends on success: six pops, a fresh empty frame. -/
theorem sdOK_opDelegateCall {σ : Type} (ctx : Context σ) (hne : ctx.callStack ≠ [])
    (hv : 6 ≤ ctx.call.stack.length) (hok : (opDelegateCall ctx).2 = none) :
    StackDeltaOK opDelegateCall ctx (-6) := by
  obtain ⟨g0, a1, io2, is3, ro4, rs5, r, hs⟩ := exists_cons6 ctx.call.stack hv
  obtain ⟨c, t, hcs⟩ : ∃ c t, ctx.callStack = c :: t := by
    cases h : ctx.callStack with
    | nil => exact absurd h hne
    | cons c t => exact ⟨c, t, rfl⟩
  have hcs1 : (Context.setStack r ctx).callStack = { c with stack := r } :: t :=
    setStack_callStack ctx c t r hcs
  rcases hec : ensure_code (Context.setStack r ctx) (bytes20 a1) with ⟨ctx2, res⟩
  cases res with
  | error e =>
    exfalso
    simp [opDelegateCall, hs, spop, hec] at hok
  | ok bin =>
    have hcs2 : ctx2.callStack = { c with stack := r } :: t := by
      have h := (ensure_code_frames (Context.setStack r ctx) (bytes20 a1)).1
      rw [hec] at h
      exact h.trans hcs1
    have hexec : (opDelegateCall ctx).1
        = { ctx2 with callStack :=
            ({ msgData := getPtr ctx2.call.memory (io2 % U64) (is3 % U64),
               msgGas := ctx2.call.msgGas, msgSender := ctx2.call.msgSender,
               msgValue := ctx2.call.msgValue, this := ctx2.call.this,
               codePtr := some (bytes20 a1),
               memory := [], stack := [], pc := 0,
               outerReturnOffset := ro4 % U64, outerReturnSize := rs5 % U64,
               innerReturnVal := [] } : Call) :: ctx2.callStack } := by
      simp only [opDelegateCall, hs, spop, hec]
    apply sdOK_push
    · rw [hexec]
      show (_ :: ctx2.callStack).length = ctx.callStack.length + 1
      rw [hcs2, hcs]
      simp
    · rw [hexec]
      show ((_ :: ctx2.callStack).getD 1 defCall).stack.length = (_ : Int)
      rw [hcs2, hs]
      simp
      omega
    · rw [hexec]
      show (Context.call _).stack.length = 0
      rw [Context.call]
      rfl

/-- STOP: for an inner frame pop it and push the success flag outside, for
the outermost frame just mark done. -/
theorem sdOK_opStop {σ : Type} (ctx : Context σ) (hne : ctx.callStack ≠ []) :
    StackDeltaOK opStop ctx 0 := by
  obtain ⟨c, t, hcs⟩ : ∃ c t, ctx.callStack = c :: t := by
    cases h : ctx.callStack with
    | nil => exact absurd h hne
    | cons c t => exact ⟨c, t, rfl⟩
  cases t with
  | nil =>
    have hlen : ¬ 1 < ctx.callStack.length := by
      rw [hcs]
      simp
    have hexec : opStop ctx = ({ ctx with isDone := true }, none) := by
      simp only [opStop]
      rw [if_neg hlen]
    apply sdOK_same
    · rw [hexec]
    · rw [hexec]
      show ((ctx.call.stack.length : Int)) = (ctx.call.stack.length : Int) + 0
      omega
  | cons outer rest =>
    have hlen : 1 < ctx.callStack.length := by
      rw [hcs]
      simp
    have hexec : opStop ctx
        = ({ ctx with callStack := { outer with stack := 1 :: outer.stack } :: rest }, none) := by
      simp only [opStop]
      rw [if_pos hlen, hcs]
    apply sdOK_pop
    · rw [hexec, hcs]
      simp
    · rw [hexec, hcs]
      rfl

/-- RETURN: for an inner frame pop it, write the return window and push the
success flag outside; for the outermost frame pop the operands and finish. -/
theorem sdOK_opReturn {σ : Type} (ctx : Context σ) (hne : ctx.callStack ≠ [])
    (hv : 2 ≤ ctx.call.stack.length) : StackDeltaOK opReturn ctx (-2) := by
  obtain ⟨a, b, r, hs⟩ := exists_cons2 ctx.call.stack hv
  obtain ⟨c, t, hcs⟩ : ∃ c t, ctx.callStack = c :: t := by
    cases h : ctx.callStack with
    | nil => exact absurd h hne
    | cons c t => exact ⟨c, t, rfl⟩
  cases t with
  | nil =>
    have hlen : ¬ 1 < ctx.callStack.length := by
      rw [hcs]
      simp
    have hexec : opReturn ctx = ({ Context.setStack r ctx with isDone := true }, none) := by
      simp only [opReturn, hs, spop]
      rw [if_neg hlen]
    apply sdOK_stackVal _ _ _ r
    · rw [hexec]
      show (Context.setStack r ctx).callStack.length = ctx.callStack.length
      rw [setStack_callStack ctx c [] r hcs, hcs]
      simp
    · rw [hexec]
      show (Context.setStack r ctx).call.stack = r
      rw [Context.setStack, Context.modifyStack, updCall_call _ ctx c [] hcs]
    · rw [hs]
      simp
      omega
  | cons outer rest =>
    have hlen : 1 < ctx.callStack.length := by
      rw [hcs]
      simp
    have hexec : opReturn ctx
        = ({ ctx with callStack :=
            ({ outer with
                innerReturnVal := getPtr ctx.call.memory (a % U64) (b % U64),
                memory := memSet outer.memory ctx.call.outerReturnOffset
                  ctx.call.outerReturnSize (getPtr ctx.call.memory (a % U64) (b % U64)),
                stack := 1 :: outer.stack }) :: rest }, none) := by
      simp only [opReturn, hs, spop]
      rw [if_pos hlen, hcs]
    apply sdOK_pop
    · rw [hexec, hcs]
      simp
    · rw [hexec, hcs]
      rfl

/-- REVERT always surfaces the Reverted error. -/
theorem sdOK_opRevert {σ : Type} (ctx : Context σ) (d : Int)
    (hv : 2 ≤ ctx.call.stack.length) (hok : (opRevert ctx).2 = none) :
    StackDeltaOK opRevert ctx d := by
  obtain ⟨a, b, r, hs⟩ := exists_cons2 ctx.call.stack hv
  exfalso
  simp [opRevert, hs, spop] at hok

/-- SELFDESTRUCT always surfaces an error. -/
theorem sdOK_opSuicide {σ : Type} (ctx : Context σ) (d : Int)
    (hv : 1 ≤ ctx.call.stack.length) (hok : (opSuicide ctx).2 = none) :
    StackDeltaOK opSuicide ctx d := by
  rcases hs : ctx.call.stack with _ | ⟨a, r⟩
  · rw [hs] at hv
    simp at hv
  · exfalso
    simp [opSuicide, hs, spop] at hok

/-- Every `mkPure` exec is frame-preserving with the delta of its stack
function. -/
theorem sdOK_mkPure {σ : Type} (f : List Nat → List Nat) (ctx : Context σ) (d : Int)
    (hne : ctx.callStack ≠ [])
    (hf : ((f ctx.call.stack).length : Int) = (ctx.call.stack.length : Int) + d) :
    StackDeltaOK (mkPure f) ctx d :=
  sdOK_modify _ ctx ctx f d hne rfl rfl hf

/-- Binary accumulate-into-top ops (delta -1). -/
theorem sdOK_binOp {σ : Type} (f : Nat → Nat → Nat) (ctx : Context σ)
    (hne : ctx.callStack ≠ []) (hv : 2 ≤ ctx.call.stack.length) :
    StackDeltaOK (mkPure (binPeek f)) ctx (-1) := by
  apply sdOK_mkPure _ _ _ hne
  have h := binPeek_length f ctx.call.stack hv
  omega

/-- Ternary accumulate-into-top ops (delta -2). -/
theorem sdOK_ternOp {σ : Type} (f : Nat → Nat → Nat → Nat) (ctx : Context σ)
    (hne : ctx.callStack ≠ []) (hv : 3 ≤ ctx.call.stack.length) :
    StackDeltaOK (mkPure (ternPeek f)) ctx (-2) := by
  apply sdOK_mkPure _ _ _ hne
  have h := ternPeek_length f ctx.call.stack hv
  omega

/-- Replace-the-top ops (delta 0). -/
theorem sdOK_unOp {σ : Type} (f : Nat → Nat) (ctx : Context σ)
    (hne : ctx.callStack ≠ []) :
    StackDeltaOK (mkPure (supdTop f)) ctx 0 := by
  apply sdOK_mkPure _ _ _ hne
  rw [supdTop_length]
  omega

/-- POP (delta -1). -/
theorem sdOK_opPop {σ : Type} (ctx : Context σ) (hne : ctx.callStack ≠ [])
    (hv : 1 ≤ ctx.call.stack.length) :
    StackDeltaOK (mkPure (fun s => (spop s).2)) ctx (-1) := by
  apply sdOK_mkPure _ _ _ hne
  have h := spop_snd_length ctx.call.stack hv
  omega

/-- DUPn (delta +1). -/
theorem sdOK_makeDup {σ : Type} (n : Nat) (ctx : Context σ) (hne : ctx.callStack ≠ []) :
    StackDeltaOK (makeDup n) ctx 1 := by
  apply sdOK_mkPure _ _ _ hne
  rw [sdup_length]
  omega

/-- SWAPn (delta 0). -/
theorem sdOK_makeSwap {σ : Type} (n : Nat) (ctx : Context σ) (hne : ctx.callStack ≠ []) :
    StackDeltaOK (makeSwap n) ctx 0 := by
  apply sdOK_mkPure _ _ _ hne
  rw [sswapIdx_length]
  omega

/-- LOGn pops n+2 operands. -/
theorem sdOK_makeLog {σ : Type} (n : Nat) (ctx : Context σ) (hne : ctx.callStack ≠ [])
    (hv : 2 + n ≤ ctx.call.stack.length) :
    StackDeltaOK (makeLog n) ctx (-(2 + (n : Int))) := by
  apply sdOK_mkPure _ _ _ hne
  rw [List.length_drop]
  omega

/-- Stack-delta dispatch over the first quarter of the operation table. -/
theorem sdOK_chunkA {σ : Type} (opc : Nat) (m : OpMeta) (ctx : Context σ)
    (hne : ctx.callStack ≠ [])
    (hv : realArity opc ≤ ctx.call.stack.length)
    (hok : (execFor opc ctx).2 = none)
    (hmem : (opc, m) ∈ metaEntriesA) :
    StackDeltaOK (execFor opc) ctx (amendedDelta opc m ctx) := by
  simp only [metaEntriesA, List.mem_cons, List.not_mem_nil, or_false, Prod.mk.injEq] at hmem
  rcases hmem with ⟨rfl, rfl⟩ | hmem
  · exact sdOK_opStop ctx hne
  rcases hmem with ⟨rfl, rfl⟩ | hmem
  · exact sdOK_binOp uadd ctx hne hv
  rcases hmem with ⟨rfl, rfl⟩ | hmem
  · exact sdOK_binOp umul ctx hne hv
  rcases hmem with ⟨rfl, rfl⟩ | hmem
  · exact sdOK_binOp usub ctx hne hv
  rcases hmem with ⟨rfl, rfl⟩ | hmem
  · exact sdOK_binOp udiv ctx hne hv
  rcases hmem with ⟨rfl, rfl⟩ | hmem
  · exact sdOK_binOp usdiv ctx hne hv
  rcases hmem with ⟨rfl, rfl⟩ | hmem
  · exact sdOK_binOp umod ctx hne hv
  rcases hmem with ⟨rfl, rfl⟩ | hmem
  · exact sdOK_binOp usmod ctx hne hv
  rcases hmem with ⟨rfl, rfl⟩ | hmem
  · exact sdOK_ternOp uaddmod ctx hne hv
  rcases hmem with ⟨rfl, rfl⟩ | hmem
  · exact sdOK_ternOp umulmod ctx hne hv
  rcases hmem with ⟨rfl, rfl⟩ | hmem
  · exact sdOK_binOp uexp ctx hne hv
  rcases hmem with ⟨rfl, rfl⟩ | hmem
  · exact sdOK_binOp usignextend ctx hne hv
  rcases hmem with ⟨rfl, rfl⟩ | hmem
  · exact sdOK_binOp ult ctx hne hv
  rcases hmem with ⟨rfl, rfl⟩ | hmem
  · exact sdOK_binOp ugt ctx hne hv
  rcases hmem with ⟨rfl, rfl⟩ | hmem
  · exact sdOK_binOp uslt ctx hne hv
  rcases hmem with ⟨rfl, rfl⟩ | hmem
  · exact sdOK_binOp usgt ctx hne hv
  rcases hmem with ⟨rfl, rfl⟩ | hmem
  · exact sdOK_binOp ueq ctx hne hv
  rcases hmem with ⟨rfl, rfl⟩ | hmem
  · exact sdOK_unOp uiszero ctx hne
  rcases hmem with ⟨rfl, rfl⟩ | hmem
  · exact sdOK_binOp uand ctx hne hv
  rcases hmem with ⟨rfl, rfl⟩ | hmem
  · exact sdOK_binOp uor ctx hne hv
  rcases hmem with ⟨rfl, rfl⟩ | hmem
  · exact sdOK_binOp uxor ctx hne hv
  rcases hmem with ⟨rfl, rfl⟩ | hmem
  · exact sdOK_unOp unot ctx hne
  rcases hmem with ⟨rfl, rfl⟩ | hmem
  · exact sdOK_binOp ubyte ctx hne hv
  rcases hmem with ⟨rfl, rfl⟩ | hmem
  · exact sdOK_binOp ushl ctx hne hv
  rcases hmem with ⟨rfl, rfl⟩ | hmem
  · exact sdOK_binOp ushr ctx hne hv
  rcases hmem with ⟨rfl, rfl⟩ | hmem
  · exact sdOK_binOp usar ctx hne hv
  rcases hmem with ⟨rfl, rfl⟩ | hmem
  · exact sdOK_opSha3 ctx hne hv
  rcases hmem with ⟨rfl, rfl⟩ | hmem
  · exact sdOK_pushTop _ ctx ctx _ hne rfl rfl
  rcases hmem with ⟨rfl, rfl⟩ | hmem
  · exact Option.noConfusion hok
  rcases hmem with ⟨rfl, rfl⟩ | hmem
  · exact sdOK_pushTop _ ctx ctx _ hne rfl rfl
  rcases hmem with ⟨rfl, rfl⟩ | hmem
  · exact sdOK_pushTop _ ctx ctx _ hne rfl rfl
  rcases hmem with ⟨rfl, rfl⟩ | hmem
  · exact sdOK_pushTop _ ctx ctx _ hne rfl rfl
  rcases hmem with ⟨rfl, rfl⟩ | hmem
  · exact sdOK_replaceTop _ ctx ctx _ hne rfl rfl
  rcases hmem with ⟨rfl, rfl⟩ | hmem
  · exact sdOK_pushTop _ ctx ctx _ hne rfl rfl
  rcases hmem with ⟨rfl, rfl⟩ | hmem
  · exact sdOK_opCallDataCopy ctx hne hv
  obtain ⟨rfl, rfl⟩ := hmem
  exact sdOK_opCodeSize ctx hne hok

/-- JUMPDEST is a no-op. -/
theorem sdOK_opJumpdest {σ : Type} (ctx : Context σ) : StackDeltaOK opJumpdest ctx 0 :=
  sdOK_same _ ctx 0 rfl
    (by show ((ctx.call.stack.length : Int)) = (ctx.call.stack.length : Int) + 0; omega)

/-- Stack-delta dispatch over the second quarter of the operation table. -/
theorem sdOK_chunkB {σ : Type} (opc : Nat) (m : OpMeta) (ctx : Context σ)
    (hne : ctx.callStack ≠ [])
    (hv : realArity opc ≤ ctx.call.stack.length)
    (hok : (execFor opc ctx).2 = none)
    (hmem : (opc, m) ∈ metaEntriesB) :
    StackDeltaOK (execFor opc) ctx (amendedDelta opc m ctx) := by
  simp only [metaEntriesB, List.mem_cons, List.not_mem_nil, or_false, Prod.mk.injEq] at hmem
  rcases hmem with ⟨rfl, rfl⟩ | hmem
  · exact sdOK_opCodeCopy ctx hne hv hok
  rcases hmem with ⟨rfl, rfl⟩ | hmem
  · exact sdOK_pushTop _ ctx ctx _ hne rfl rfl
  rcases hmem with ⟨rfl, rfl⟩ | hmem
  · exact sdOK_opExtCodeSize ctx hne hok
  rcases hmem with ⟨rfl, rfl⟩ | hmem
  · exact sdOK_opExtCodeCopy ctx hne hv hok
  rcases hmem with ⟨rfl, rfl⟩ | hmem
  · exact sdOK_pushTop _ ctx ctx _ hne rfl rfl
  rcases hmem with ⟨rfl, rfl⟩ | hmem
  · exact sdOK_opReturnDataCopy ctx hne hv hok
  rcases hmem with ⟨rfl, rfl⟩ | hmem
  · exact sdOK_opExtCodeHash ctx hne hok
  rcases hmem with ⟨rfl, rfl⟩ | hmem
  · exact sdOK_opBlockhash ctx hne hok
  rcases hmem with ⟨rfl, rfl⟩ | hmem
  · exact sdOK_pushTop _ ctx ctx _ hne rfl rfl
  rcases hmem with ⟨rfl, rfl⟩ | hmem
  · exact sdOK_pushTop _ ctx ctx _ hne rfl rfl
  rcases hmem with ⟨rfl, rfl⟩ | hmem
  · exact sdOK_pushTop _ ctx ctx _ hne rfl rfl
  rcases hmem with ⟨rfl, rfl⟩ | hmem
  · exact sdOK_pushTop _ ctx ctx _ hne rfl rfl
  rcases hmem with ⟨rfl, rfl⟩ | hmem
  · exact sdOK_pushTop _ ctx ctx _ hne rfl rfl
  rcases hmem with ⟨rfl, rfl⟩ | hmem
  · exact sdOK_pushTop _ ctx ctx _ hne rfl rfl
  rcases hmem with ⟨rfl, rfl⟩ | hmem
  · exact sdOK_opSelfBalance ctx hne hok
  rcases hmem with ⟨rfl, rfl⟩ | hmem
  · exact sdOK_pushTop _ ctx ctx _ hne rfl rfl
  rcases hmem with ⟨rfl, rfl⟩ | hmem
  · exact sdOK_opPop ctx hne hv
  rcases hmem with ⟨rfl, rfl⟩ | hmem
  · exact sdOK_replaceTop _ ctx ctx _ hne rfl rfl
  rcases hmem with ⟨rfl, rfl⟩ | hmem
  · exact sdOK_opMstore ctx hne hv
  rcases hmem with ⟨rfl, rfl⟩ | hmem
  · exact sdOK_opMstore8 ctx hne hv
  rcases hmem with ⟨rfl, rfl⟩ | hmem
  · exact sdOK_opSload ctx hne hok
  rcases hmem with ⟨rfl, rfl⟩ | hmem
  · exact sdOK_opSstore ctx hne hv
  rcases hmem with ⟨rfl, rfl⟩ | hmem
  · exact sdOK_opJump ctx hne hv hok
  rcases hmem with ⟨rfl, rfl⟩ | hmem
  · exact sdOK_opJumpi ctx hne hv hok
  rcases hmem with ⟨rfl, rfl⟩ | hmem
  · exact sdOK_pushTop _ ctx ctx _ hne rfl rfl
  rcases hmem with ⟨rfl, rfl⟩ | hmem
  · exact sdOK_pushTop _ ctx ctx _ hne rfl rfl
  rcases hmem with ⟨rfl, rfl⟩ | hmem
  · exact sdOK_pushTop _ ctx ctx _ hne rfl rfl
  rcases hmem with ⟨rfl, rfl⟩ | hmem
  · exact sdOK_opJumpdest ctx
  rcases hmem with ⟨rfl, rfl⟩ | hmem
  · exact sdOK_makePush _ ctx hne hok
  rcases hmem with ⟨rfl, rfl⟩ | hmem
  · exact sdOK_makePush _ ctx hne hok
  rcases hmem with ⟨rfl, rfl⟩ | hmem
  · exact sdOK_makePush _ ctx hne hok
  rcases hmem with ⟨rfl, rfl⟩ | hmem
  · exact sdOK_makePush _ ctx hne hok
  rcases hmem with ⟨rfl, rfl⟩ | hmem
  · exact sdOK_makePush _ ctx hne hok
  rcases hmem with ⟨rfl, rfl⟩ | hmem
  · exact sdOK_makePush _ ctx hne hok
  rcases hmem with ⟨rfl, rfl⟩ | hmem
  · exact sdOK_makePush _ ctx hne hok
  obtain ⟨rfl, rfl⟩ := hmem
  exact sdOK_makePush _ ctx hne hok

/-- Stack-delta dispatch over the third quarter of the operation table. -/
theorem sdOK_chunkC {σ : Type} (opc : Nat) (m : OpMeta) (ctx : Context σ)
    (hne : ctx.callStack ≠ [])
    (hv : realArity opc ≤ ctx.call.stack.length)
    (hok : (execFor opc ctx).2 = none)
    (hmem : (opc, m) ∈ metaEntriesC) :
    StackDeltaOK (execFor opc) ctx (amendedDelta opc m ctx) := by
  simp only [metaEntriesC, List.mem_cons, List.not_mem_nil, or_false, Prod.mk.injEq] at hmem
  rcases hmem with ⟨rfl, rfl⟩ | hmem
  · exact sdOK_makePush _ ctx hne hok
  rcases hmem with ⟨rfl, rfl⟩ | hmem
  · exact sdOK_makePush _ ctx hne hok
  rcases hmem with ⟨rfl, rfl⟩ | hmem
  · exact sdOK_makePush _ ctx hne hok
  rcases hmem with ⟨rfl, rfl⟩ | hmem
  · exact sdOK_makePush _ ctx hne hok
  rcases hmem with ⟨rfl, rfl⟩ | hmem
  · exact sdOK_makePush _ ctx hne hok
  rcases hmem with ⟨rfl, rfl⟩ | hmem
  · exact sdOK_makePush _ ctx hne hok
  rcases hmem with ⟨rfl, rfl⟩ | hmem
  · exact sdOK_makePush _ ctx hne hok
  rcases hmem with ⟨rfl, rfl⟩ | hmem
  · exact sdOK_makePush _ ctx hne hok
  rcases hmem with ⟨rfl, rfl⟩ | hmem
  · exact sdOK_makePush _ ctx hne hok
  rcases hmem with ⟨rfl, rfl⟩ | hmem
  · exact sdOK_makePush _ ctx hne hok
  rcases hmem with ⟨rfl, rfl⟩ | hmem
  · exact sdOK_makePush _ ctx hne hok
  rcases hmem with ⟨rfl, rfl⟩ | hmem
  · exact sdOK_makePush _ ctx hne hok
  rcases hmem with ⟨rfl, rfl⟩ | hmem
  · exact sdOK_makePush _ ctx hne hok
  rcases hmem with ⟨rfl, rfl⟩ | hmem
  · exact sdOK_makePush _ ctx hne hok
  rcases hmem with ⟨rfl, rfl⟩ | hmem
  · exact sdOK_makePush _ ctx hne hok
  rcases hmem with ⟨rfl, rfl⟩ | hmem
  · exact sdOK_makePush _ ctx hne hok
  rcases hmem with ⟨rfl, rfl⟩ | hmem
  · exact sdOK_makePush _ ctx hne hok
  rcases hmem with ⟨rfl, rfl⟩ | hmem
  · exact sdOK_makePush _ ctx hne hok
  rcases hmem with ⟨rfl, rfl⟩ | hmem
  · exact sdOK_makePush _ ctx hne hok
  rcases hmem with ⟨rfl, rfl⟩ | hmem
  · exact sdOK_makePush _ ctx hne hok
  rcases hmem with ⟨rfl, rfl⟩ | hmem
  · exact sdOK_makePush _ ctx hne hok
  rcases hmem with ⟨rfl, rfl⟩ | hmem
  · exact sdOK_makePush _ ctx hne hok
  rcases hmem with ⟨rfl, rfl⟩ | hmem
  · exact sdOK_makePush _ ctx hne hok
  rcases hmem with ⟨rfl, rfl⟩ | hmem
  · exact sdOK_makePush _ ctx hne hok
  rcases hmem with ⟨rfl, rfl⟩ | hmem
  · exact sdOK_makeDup _ ctx hne
  rcases hmem with ⟨rfl, rfl⟩ | hmem
  · exact sdOK_makeDup _ ctx hne
  rcases hmem with ⟨rfl, rfl⟩ | hmem
  · exact sdOK_makeDup _ ctx hne
  rcases hmem with ⟨rfl, rfl⟩ | hmem
  · exact sdOK_makeDup _ ctx hne
  rcases hmem with ⟨rfl, rfl⟩ | hmem
  · exact sdOK_makeDup _ ctx hne
  rcases hmem with ⟨rfl, rfl⟩ | hmem
  · exact sdOK_makeDup _ ctx hne
  rcases hmem with ⟨rfl, rfl⟩ | hmem
  · exact sdOK_makeDup _ ctx hne
  rcases hmem with ⟨rfl, rfl⟩ | hmem
  · exact sdOK_makeDup _ ctx hne
  rcases hmem with ⟨rfl, rfl⟩ | hmem
  · exact sdOK_makeDup _ ctx hne
  rcases hmem with ⟨rfl, rfl⟩ | hmem
  · exact sdOK_makeDup _ ctx hne
  rcases hmem with ⟨rfl, rfl⟩ | hmem
  · exact sdOK_makeDup _ ctx hne
  obtain ⟨rfl, rfl⟩ := hmem
  exact sdOK_makeDup _ ctx hne

/-- Stack-delta dispatch over the last quarter of the operation table. -/
theorem sdOK_chunkD {σ : Type} (opc : Nat) (m : OpMeta) (ctx : Context σ)
    (hne : ctx.callStack ≠ [])
    (hv : realArity opc ≤ ctx.call.stack.length)
    (hok : (execFor opc ctx).2 = none)
    (hmem : (opc, m) ∈ metaEntriesD) :
    StackDeltaOK (execFor opc) ctx (amendedDelta opc m ctx) := by
  simp only [metaEntriesD, List.mem_cons, List.not_mem_nil, or_false, Prod.mk.injEq] at hmem
  rcases hmem with ⟨rfl, rfl⟩ | hmem
  · exact sdOK_makeDup _ ctx hne
  rcases hmem with ⟨rfl, rfl⟩ | hmem
  · exact sdOK_makeDup _ ctx hne
  rcases hmem with ⟨rfl, rfl⟩ | hmem
  · exact sdOK_makeDup _ ctx hne
  rcases hmem with ⟨rfl, rfl⟩ | hmem
  · exact sdOK_makeDup _ ctx hne
  rcases hmem with ⟨rfl, rfl⟩ | hmem
  · exact sdOK_makeSwap _ ctx hne
  rcases hmem with ⟨rfl, rfl⟩ | hmem
  · exact sdOK_makeSwap _ ctx hne
  rcases hmem with ⟨rfl, rfl⟩ | hmem
  · exact sdOK_makeSwap _ ctx hne
  rcases hmem with ⟨rfl, rfl⟩ | hmem
  · exact sdOK_makeSwap _ ctx hne
  rcases hmem with ⟨rfl, rfl⟩ | hmem
  · exact sdOK_makeSwap _ ctx hne
  rcases hmem with ⟨rfl, rfl⟩ | hmem
  · exact sdOK_makeSwap _ ctx hne
  rcases hmem with ⟨rfl, rfl⟩ | hmem
  · exact sdOK_makeSwap _ ctx hne
  rcases hmem with ⟨rfl, rfl⟩ | hmem
  · exact sdOK_makeSwap _ ctx hne
  rcases hmem with ⟨rfl, rfl⟩ | hmem
  · exact sdOK_makeSwap _ ctx hne
  rcases hmem with ⟨rfl, rfl⟩ | hmem
  · exact sdOK_makeSwap _ ctx hne
  rcases hmem with ⟨rfl, rfl⟩ | hmem
  · exact sdOK_makeSwap _ ctx hne
  rcases hmem with ⟨rfl, rfl⟩ | hmem
  · exact sdOK_makeSwap _ ctx hne
  rcases hmem with ⟨rfl, rfl⟩ | hmem
  · exact sdOK_makeSwap _ ctx hne
  rcases hmem with ⟨rfl, rfl⟩ | hmem
  · exact sdOK_makeSwap _ ctx hne
  rcases hmem with ⟨rfl, rfl⟩ | hmem
  · exact sdOK_makeSwap _ ctx hne
  rcases hmem with ⟨rfl, rfl⟩ | hmem
  · exact sdOK_makeSwap _ ctx hne
  rcases hmem with ⟨rfl, rfl⟩ | hmem
  · exact sdOK_makeLog _ ctx hne hv
  rcases hmem with ⟨rfl, rfl⟩ | hmem
  · exact sdOK_makeLog _ ctx hne hv
  rcases hmem with ⟨rfl, rfl⟩ | hmem
  · exact sdOK_makeLog _ ctx hne hv
  rcases hmem with ⟨rfl, rfl⟩ | hmem
  · exact sdOK_makeLog _ ctx hne hv
  rcases hmem with ⟨rfl, rfl⟩ | hmem
  · exact sdOK_makeLog _ ctx hne hv
  rcases hmem with ⟨rfl, rfl⟩ | hmem
  · exact Option.noConfusion hok
  rcases hmem with ⟨rfl, rfl⟩ | hmem
  · exact sdOK_opCall ctx _ hne hv hok
  rcases hmem with ⟨rfl, rfl⟩ | hmem
  · exact Option.noConfusion hok
  rcases hmem with ⟨rfl, rfl⟩ | hmem
  · exact sdOK_opReturn ctx hne hv
  rcases hmem with ⟨rfl, rfl⟩ | hmem
  · exact sdOK_opDelegateCall ctx hne hv hok
  rcases hmem with ⟨rfl, rfl⟩ | hmem
  · exact Option.noConfusion hok
  rcases hmem with ⟨rfl, rfl⟩ | hmem
  · exact sdOK_opStaticCall ctx _ hne hv hok
  rcases hmem with ⟨rfl, rfl⟩ | hmem
  · exact sdOK_opRevert ctx _ hv hok
  rcases hmem with ⟨rfl, rfl⟩ | hmem
  · exact Option.noConfusion hok
  obtain ⟨rfl, rfl⟩ := hmem
  exact sdOK_opSuicide ctx _ hv hok

/-- C1 (amended): for every opcode in the operation table and every pre-state
with a live frame and enough operands, a successful execution changes the
current frame's operand-stack depth by `nStackOut - nStackIn` from the table
entry, except ADDMOD/MULMOD (-2), CALLDATALOAD/EXTCODESIZE (0), CALL on the
bare-transfer or precompile path (-6) and STATICCALL on the precompile path
(-5); frame-pushing paths start the new frame empty with the delta applied to
the caller, frame-popping paths hand the outer frame one success flag. -/
theorem optable_stack_delta {σ : Type} (opc : Nat) (op : Operation σ) (ctx : Context σ)
    (h : lookupOp opc = some op)
    (hne : ctx.callStack ≠ [])
    (hv : realArity opc ≤ ctx.call.stack.length)
    (hok : (op.exec ctx).2 = none) :
    StackDeltaOK op.exec ctx (amendedDelta opc op.meta ctx) := by
  obtain ⟨m, hm, rfl⟩ : ∃ m, lookupMeta opc = some m ∧ op = ⟨m, execFor opc⟩ := by
    rcases hm : lookupMeta opc with _ | m
    · rw [lookupOp, hm] at h
      simp at h
    · rw [lookupOp, hm] at h
      simp at h
      exact ⟨m, rfl, h.symm⟩
  have hok' : ((execFor opc ctx : Context σ × Option Err)).2 = none := hok
  have hmem : (opc, m) ∈ metaEntries := by
    rcases hfind : metaEntries.find? (fun p => p.1 == opc) with _ | p
    · rw [lookupMeta, alistGet, hfind] at hm
      simp at hm
    · rw [lookupMeta, alistGet, hfind] at hm
      simp at hm
      have hp := List.find?_some hfind
      have hpm := List.mem_of_find?_eq_some hfind
      obtain ⟨p1, p2⟩ := p
      simp at hp hm
      subst hp
      subst hm
      exact hpm
  show StackDeltaOK (execFor opc) ctx (amendedDelta opc m ctx)
  rw [metaEntries] at hmem
  rcases List.mem_append.mp hmem with h3 | hD
  · rcases List.mem_append.mp h3 with h2 | hC
    · rcases List.mem_append.mp h2 with hA | hB
      · exact sdOK_chunkA opc m ctx hne hv hok' hA
      · exact sdOK_chunkB opc m ctx hne hv hok' hB
    · exact sdOK_chunkC opc m ctx hne hv hok' hC
  · exact sdOK_chunkD opc m ctx hne hv hok' hD

/-- CALL's table entry records 7 in and 0 out (a depth change of -7), but on
the bare value-transfer path (inSize = 0) the exec pops the seven operands and
pushes a success flag without any frame change: depth 7 before, 1 after, a
change of -6. -/
theorem opCall_transfer_delta_cex :
    ∃ op : Operation Unit, lookupOp 0xf1 = some op
    ∧ op.meta.nStackIn = 7 ∧ op.meta.nStackOut = 0
    ∧ (sampleCtx [0, 0, 0, 0, 0, 0, 0]).call.stack.length = 7
    ∧ (op.exec (sampleCtx [0, 0, 0, 0, 0, 0, 0])).2 = none
    ∧ (op.exec (sampleCtx [0, 0, 0, 0, 0, 0, 0])).1.callStack.length
        = (sampleCtx [0, 0, 0, 0, 0, 0, 0]).callStack.length
    ∧ (op.exec (sampleCtx [0, 0, 0, 0, 0, 0, 0])).1.call.stack.length = 1 := by
  refine ⟨⟨⟨0xf1, 0, 7, 0⟩, execFor 0xf1⟩, ?_, rfl, rfl, rfl, rfl, rfl, rfl⟩
  rfl

/-- Witness: the table delta holds concretely for ADD on the stack [2, 3]. -/
theorem optable_stack_delta_witness :
    @lookupOp Unit 0x01 = some ⟨⟨0x01, 0, 2, 1⟩, execFor 0x01⟩
    ∧ (sampleCtx [2, 3]).callStack ≠ []
    ∧ realArity 0x01 ≤ (sampleCtx [2, 3]).call.stack.length
    ∧ ((Operation.mk ⟨0x01, 0, 2, 1⟩ (execFor 0x01)).exec (sampleCtx [2, 3])).2 = none
    ∧ StackDeltaOK (Operation.mk (⟨0x01, 0, 2, 1⟩ : OpMeta) (execFor 0x01)).exec
        (sampleCtx [2, 3])
        (amendedDelta 0x01 (⟨0x01, 0, 2, 1⟩ : OpMeta) (sampleCtx [2, 3])) :=
  ⟨rfl, fun hh => List.noConfusion hh, by decide, rfl,
    optable_stack_delta 0x01 ⟨⟨0x01, 0, 2, 1⟩, execFor 0x01⟩ (sampleCtx [2, 3])
      rfl (fun hh => List.noConfusion hh) (by decide) rfl⟩
